import Mathlib

/-! # phonet-utils: netlink request building and response dispatching

A shallow embedding of the netlink transaction code of `src/phonet.c` (address tool) and
`src/pnroute.c` (route tool), and of the comparator `inocmp` of `src/pnstat.c` (socket-list
tool).

* Memory is byte addressed (`Mem`), multi-byte fields are little endian (host order of the
  targets); an address is an offset from the start of the request / receive buffer.
* `unsigned int` and `size_t` arithmetic wraps explicitly; `ssize_t ret` is an integer whose
  cast `(size_t)ret` is taken modulo `2 ^ w`, `w` being the width of `size_t` (32 or 64).
* Calls into libc and the kernel (`strtoul`, `sscanf`, `if_nametoindex`, `socket`, `sendto`,
  `recvmsg`, ...) are inputs: the model receives what they returned.
-/

namespace PhonetUtils

/-! ## Memory -/

/-- Byte-addressed memory; only the low 8 bits of a cell are ever observed. -/
abbrev Mem := Nat → Nat

/-- Load of a `uint8_t`. -/
def rd8 (m : Mem) (a : Nat) : Nat := m a % 256

/-- Load of a little-endian `uint16_t`. -/
def rd16 (m : Mem) (a : Nat) : Nat := rd8 m a + 256 * rd8 m (a + 1)

/-- Load of a little-endian `uint32_t`. -/
def rd32 (m : Mem) (a : Nat) : Nat :=
  rd8 m a + 256 * rd8 m (a + 1) + 65536 * rd8 m (a + 2) + 16777216 * rd8 m (a + 3)

/-- Store of a `uint8_t` (the value is truncated to 8 bits). -/
def wr8 (m : Mem) (a v : Nat) : Mem := fun x => if x = a then v % 256 else m x

/-- Store of a little-endian `uint16_t` (the value is truncated to 16 bits). -/
def wr16 (m : Mem) (a v : Nat) : Mem := wr8 (wr8 m a v) (a + 1) (v / 256)

/-- Store of a little-endian `uint32_t` (the value is truncated to 32 bits). -/
def wr32 (m : Mem) (a v : Nat) : Mem :=
  wr8 (wr8 (wr8 (wr8 m a v) (a + 1) (v / 256)) (a + 2) (v / 65536)) (a + 3) (v / 16777216)

/-- Conversion to `int`: the value modulo `2 ^ 32`, read as two's complement. -/
def toInt32 (x : Int) : Int := (x + 2147483648) % 4294967296 - 2147483648

/-- The negation `-x` of an `int`, as the compiled code computes it: the result is reduced to
32 bits, so `-INT_MIN` is `INT_MIN` (the C expression overflows there). -/
def negInt32 (x : Int) : Int := toInt32 (-x)

/-- Load of an `int` (32 bits, two's complement). -/
def rdS32 (m : Mem) (a : Nat) : Int := toInt32 (rd32 m a)

/-- The cast `(size_t)ret` of a signed count, for a `size_t` of `w` bits. -/
def sizeT (w : Nat) (ret : Int) : Nat := (ret % (2 : Int) ^ w).toNat

/-- The all-zero memory left by `memset (..., 0, ...)`. -/
def zeroMem : Mem := fun _ => 0

/-- The memory whose first cells hold the bytes of `l`. -/
def listMem (l : List Nat) : Mem := fun i => l.getD i 0

/-- The `n` bytes of `m` starting at address 0, as handed to `sendto`. -/
def bytesOf (m : Mem) (n : Nat) : List Nat := (List.range n).map (rd8 m)

/-! ## Constants and helpers of the kernel headers -/

/-- Modelled from the spec: `NLMSG_DONE`, the multipart terminator ("done" marker) of the
glossary. It is declared in the kernel header linux/netlink.h, which is not under src/; the
value is the one of that header. -/
def NLMSG_DONE : Nat := 3

/-- Modelled from the spec: `NLMSG_ERROR`, the ACK / error message of the glossary. It is
declared in the kernel header linux/netlink.h, which is not under src/; the value is the one of
that header. -/
def NLMSG_ERROR : Nat := 2

/-- Modelled from the spec: the request flag `NLM_F_REQUEST` of spec section 4.2, declared in
linux/netlink.h (not under src/), with the value of that header. -/
def NLM_F_REQUEST : Nat := 1

/-- Modelled from the spec: the acknowledgement flag `NLM_F_ACK` of spec section 4.2, declared
in linux/netlink.h (not under src/), with the value of that header. -/
def NLM_F_ACK : Nat := 4

/-- Modelled from the spec: the dump flag `NLM_F_ROOT` of spec section 4.2, declared in
linux/netlink.h (not under src/), with the value of that header. -/
def NLM_F_ROOT : Nat := 256

/-- Modelled from the spec: the dump flag `NLM_F_MATCH`, declared in linux/netlink.h (not under
src/), with the value of that header. -/
def NLM_F_MATCH : Nat := 512

/-- Modelled from the spec: the message type `RTM_NEWADDR`, declared in linux/rtnetlink.h (not
under src/), with the value of that header. -/
def RTM_NEWADDR : Nat := 20

/-- Modelled from the spec: the message type `RTM_DELADDR`, declared in linux/rtnetlink.h (not
under src/), with the value of that header. -/
def RTM_DELADDR : Nat := 21

/-- Modelled from the spec: the message type `RTM_GETADDR`, declared in linux/rtnetlink.h (not
under src/), with the value of that header. -/
def RTM_GETADDR : Nat := 22

/-- Modelled from the spec: the message type `RTM_NEWROUTE`, declared in linux/rtnetlink.h (not
under src/), with the value of that header. -/
def RTM_NEWROUTE : Nat := 24

/-- Modelled from the spec: the message type `RTM_DELROUTE`, declared in linux/rtnetlink.h (not
under src/), with the value of that header. -/
def RTM_DELROUTE : Nat := 25

/-- Modelled from the spec: the message type `RTM_GETROUTE`, declared in linux/rtnetlink.h (not
under src/), with the value of that header. -/
def RTM_GETROUTE : Nat := 26

/-- Modelled from the spec: the attribute type `RTA_DST`, declared in linux/rtnetlink.h (not under
src/), with the value of that header. -/
def RTA_DST : Nat := 1

/-- Modelled from the spec: the attribute type `RTA_OIF`, declared in linux/rtnetlink.h (not under
src/), with the value of that header. -/
def RTA_OIF : Nat := 4

/-- Modelled from the spec: the attribute type `IFA_LOCAL`, declared in linux/if_addr.h (not under
src/), with the value of that header. -/
def IFA_LOCAL : Nat := 2

/-- Modelled from the spec: the address family `AF_PHONET`, declared in the socket headers (not
under src/), with the value of those headers. -/
def AF_PHONET : Nat := 35

/-- Modelled from the spec: `RT_TABLE_MAIN`, declared in linux/rtnetlink.h (not under src/), with
the value of that header. -/
def RT_TABLE_MAIN : Nat := 254

/-- Modelled from the spec: `RTPROT_STATIC`, declared in linux/rtnetlink.h (not under src/), with
the value of that header. -/
def RTPROT_STATIC : Nat := 4

/-- Modelled from the spec: `RT_SCOPE_UNIVERSE`, declared in linux/rtnetlink.h (not under src/),
with the value of that header. -/
def RT_SCOPE_UNIVERSE : Nat := 0

/-- Modelled from the spec: `RTN_UNICAST`, declared in linux/rtnetlink.h (not under src/), with
the value of that header. -/
def RTN_UNICAST : Nat := 1

/-- Modelled from the spec: the error number `EINTR`, the "Interrupted" condition of the
Transaction Channel, declared in errno.h (not under src/), with the value of that header. -/
def EINTR : Nat := 4

/-- The sentinel `NOT_SET` of phonet.c. -/
def NOT_SET : Nat := 255

/-- Modelled from the spec: `NLMSG_ALIGN` of linux/netlink.h (not under src/): round up to the
4-byte alignment unit, `(len + 3) & ~3`, evaluated in `unsigned int`. -/
def NLMSG_ALIGN (len : Nat) : Nat := (len + 3) % 4294967296 / 4 * 4

/-- Modelled from the spec: `NLMSG_HDRLEN` of linux/netlink.h (not under src/): the aligned size
of the 16-byte header (length u32, type u16, flags u16, sequence u32, sender id u32). -/
def NLMSG_HDRLEN : Nat := NLMSG_ALIGN 16

/-- Modelled from the spec: `NLMSG_LENGTH` of linux/netlink.h (not under src/): logical length
of a message with `len` payload bytes. -/
def NLMSG_LENGTH (len : Nat) : Nat := len + NLMSG_HDRLEN

/-- Modelled from the spec: `NLMSG_SPACE` of linux/netlink.h (not under src/): aligned size of a
message with `len` payload bytes. -/
def NLMSG_SPACE (len : Nat) : Nat := NLMSG_ALIGN (NLMSG_LENGTH len)

/-- Modelled from the spec: `RTA_ALIGN` of linux/rtnetlink.h (not under src/): round up to 4. -/
def RTA_ALIGN (len : Nat) : Nat := (len + 3) % 4294967296 / 4 * 4

/-- Modelled from the spec: `RTA_LENGTH` of linux/rtnetlink.h (not under src/): the 4-byte
attribute header (length u16, type u16) plus `len` value bytes, unpadded. -/
def RTA_LENGTH (len : Nat) : Nat := RTA_ALIGN 4 + len

/-- Field `nlmsg_len` of the `struct nlmsghdr` at `nlh`. -/
def nlmsg_len (m : Mem) (nlh : Nat) : Nat := rd32 m nlh

/-- Field `nlmsg_type` of the `struct nlmsghdr` at `nlh`. -/
def nlmsg_type (m : Mem) (nlh : Nat) : Nat := rd16 m (nlh + 4)

/-- Field `nlmsg_flags` of the `struct nlmsghdr` at `nlh`. -/
def nlmsg_flags (m : Mem) (nlh : Nat) : Nat := rd16 m (nlh + 6)

/-- Field `rta_len` of the `struct rtattr` at `rta`. -/
def rta_len (m : Mem) (rta : Nat) : Nat := rd16 m rta

/-- Field `rta_type` of the `struct rtattr` at `rta`. -/
def rta_type (m : Mem) (rta : Nat) : Nat := rd16 m (rta + 2)

/-- Modelled from the spec: `NLMSG_DATA` of linux/netlink.h (not under src/): the payload
follows the header. -/
def NLMSG_DATA (nlh : Nat) : Nat := nlh + NLMSG_LENGTH 0

/-- Modelled from the spec: `RTA_DATA` of linux/rtnetlink.h (not under src/): the value follows
the attribute header. -/
def RTA_DATA (rta : Nat) : Nat := rta + RTA_LENGTH 0

/-- Modelled from the spec: `RTM_RTA` of linux/rtnetlink.h (not under src/): first attribute
after the 12-byte `struct rtmsg` at `rtm`. -/
def RTM_RTA (rtm : Nat) : Nat := rtm + NLMSG_ALIGN 12

/-- Modelled from the spec: `IFA_RTA` of linux/if_addr.h (not under src/): first attribute after
the 8-byte `struct ifaddrmsg` at `ifa`. -/
def IFA_RTA (ifa : Nat) : Nat := ifa + NLMSG_ALIGN 8

/-- Modelled from the spec: `RTM_PAYLOAD` of linux/rtnetlink.h (not under src/):
`nlmsg_len - NLMSG_SPACE (sizeof (struct rtmsg))`, an unsigned difference; print_route stores
it in an `int`. -/
def RTM_PAYLOAD (m : Mem) (nlh : Nat) : Int := toInt32 ((nlmsg_len m nlh : Int) - NLMSG_SPACE 12)

/-- Modelled from the spec: `NLMSG_OK` of linux/netlink.h (not under src/):
`len >= sizeof (struct nlmsghdr) && nlmsg_len >= sizeof (struct nlmsghdr) && nlmsg_len <= len`
for an unsigned `len`. -/
def NLMSG_OK (m : Mem) (nlh : Nat) (len : Nat) : Bool :=
  decide (16 ≤ len) && (decide (16 ≤ nlmsg_len m nlh) && decide (nlmsg_len m nlh ≤ len))

/-- Modelled from the spec: `RTA_OK` of linux/rtnetlink.h (not under src/):
`len >= (int) sizeof (struct rtattr) && rta_len >= sizeof (struct rtattr) && rta_len <= len`
for a signed `len`. -/
def RTA_OK (m : Mem) (rta : Nat) (len : Int) : Bool :=
  decide (4 ≤ len) && (decide (4 ≤ rta_len m rta) && decide ((rta_len m rta : Int) ≤ len))

/-! ## pnroute.c: the request -/

/-- Command line of the route tool, after the libc calls of `main`. -/
structure RouteArgs where
  /-- Value of `argc`. -/
  argc : Nat
  /-- The string `argv[1]`. -/
  verb : String
  /-- Value returned by `strtoul (argv[2], &end, 0)`. -/
  dst : Nat
  /-- The character `*end` left by `strtoul`. -/
  endc : Nat
  /-- Value returned by `if_nametoindex (argv[3])`. -/
  ifindex : Nat

/-- Lines 86-100 of pnroute.c: the header and the `struct rtmsg` are stored in the automatic
variable `req`, whose initial content `stack` is indeterminate; `nlmsg_type` is not set. -/
def pnroute_init (pid : Nat) (stack : Mem) : Mem :=
  let req := wr32 stack 0 (NLMSG_LENGTH 12)
  let req := wr16 req 6 NLM_F_REQUEST
  let req := wr32 req 8 0
  let req := wr32 req 12 pid
  let rtm := NLMSG_DATA 0
  let req := wr8 req rtm AF_PHONET
  let req := wr8 req (rtm + 1) 6
  let req := wr8 req (rtm + 2) 0
  let req := wr8 req (rtm + 3) 0
  let req := wr8 req (rtm + 4) RT_TABLE_MAIN
  let req := wr8 req (rtm + 5) RTPROT_STATIC
  let req := wr8 req (rtm + 6) RT_SCOPE_UNIVERSE
  let req := wr8 req (rtm + 7) RTN_UNICAST
  wr32 req (rtm + 8) 0

/-- Lines 131-136 of pnroute.c: the `RTA_DST` attribute is stored at `RTM_RTA (&req.rtm)`,
`nlmsg_len` grows by `RTA_LENGTH (rta->rta_len)` and `NLM_F_ACK` is set. -/
def pnroute_add_dst (req : Mem) (dst : Nat) : Mem :=
  let rta := RTM_RTA (NLMSG_DATA 0)
  let req := wr16 req rta (RTA_LENGTH 1)
  let req := wr16 req (rta + 2) RTA_DST
  let req := wr8 req (RTA_DATA rta) dst
  let req := wr32 req 0 (nlmsg_len req 0 + RTA_LENGTH (rta_len req rta))
  wr16 req 6 (nlmsg_flags req 0 ||| NLM_F_ACK)

/-- Lines 146-150 of pnroute.c: `rta = RTA_NEXT (rta, buflen)`, then the `RTA_OIF` attribute is
stored there and `nlmsg_len` grows by `RTA_LENGTH (rta->rta_len)`. -/
def pnroute_add_oif (req : Mem) (ifindex : Nat) : Mem :=
  let rta := RTM_RTA (NLMSG_DATA 0) + RTA_ALIGN (rta_len req (RTM_RTA (NLMSG_DATA 0)))
  let req := wr16 req rta (RTA_LENGTH 4)
  let req := wr16 req (rta + 2) RTA_OIF
  let req := wr32 req (RTA_DATA rta) ifindex
  wr32 req 0 (nlmsg_len req 0 + RTA_LENGTH (rta_len req rta))

/-- Lines 78-151 of pnroute.c: the request. The result is the exit status of an early `return`,
or the memory of `req` when control reaches `socket`. -/
def pnroute_request (a : RouteArgs) (pid : Nat) (stack : Mem) : Except Nat Mem :=
  let req := pnroute_init pid stack
  if a.argc ≤ 1 then
    let req := wr16 req 4 RTM_GETROUTE
    .ok (wr16 req 6 (nlmsg_flags req 0 ||| NLM_F_ROOT))
  else if a.argc ≠ 4 then
    .error 2
  else if a.verb ≠ "add" ∧ a.verb ≠ "del" then
    .error 2
  else
    let req := wr16 req 4 (if a.verb = "add" then RTM_NEWROUTE else RTM_DELROUTE)
    if 256 ≤ a.dst ∨ a.dst % 4 ≠ 0 ∨ a.endc ≠ 0 then
      .error 2
    else
      let req := pnroute_add_dst req a.dst
      if a.ifindex = 0 then .error 2 else .ok (pnroute_add_oif req a.ifindex)

/-! ## phonet.c: the request -/

/-- One option returned by `getopt_long` in phonet.c, with what libc made of its argument. -/
inductive Opt where
  /-- Option `-a ADDR`: `some v` when `sscanf` converted one item and stored `v`. -/
  | a (scan : Option Nat)
  /-- Option `-d ADDR`, as for `-a`. -/
  | d (scan : Option Nat)
  /-- Option `-l`. -/
  | l
  /-- Option `-i DEVICE`, with the value of `if_nametoindex (optarg)`. -/
  | i (ifindex : Nat)
  /-- Option `-h`. -/
  | h
  /-- Any other return value of `getopt_long` (the `default` label). -/
  | other
  deriving DecidableEq, Repr

/-- The variables of phonet.c's `main` that the option loop updates. -/
structure OptState where
  /-- Memory of `nlreq`. -/
  nlreq : Mem
  /-- Variable `ifa_index`. -/
  ifa_index : Nat
  /-- Variable `display_info`. -/
  display_info : Bool

/-- Lines 81-88 of phonet.c: the state before the option loop. -/
def phonet_init : OptState :=
  let nlreq := wr16 zeroMem 6 NLM_F_REQUEST
  let nlreq := wr16 nlreq 4 NOT_SET
  let nlreq := wr32 nlreq 0 (NLMSG_LENGTH 8)
  let ifa := NLMSG_DATA 0
  let nlreq := wr8 nlreq ifa AF_PHONET
  let nlreq := wr8 nlreq (ifa + 1) 0
  { nlreq := nlreq, ifa_index := 0, display_info := false }

/-- Lines 101-120 of phonet.c: the body shared by `case 'a'` and `case 'd'`, `type` being
`RTM_NEWADDR` or `RTM_DELADDR`. An error carries the status passed to `exit`. -/
def phonet_addr_option (s : OptState) (type : Nat) (scan : Option Nat) : Except Nat OptState :=
  match scan with
  | none => .error 1
  | some v =>
    let pn_address := v % 256
    if pn_address % 4 ≠ 0 then
      .error 1
    else
      let nlreq := wr16 s.nlreq 4 type
      let nlreq := wr16 nlreq 6 (nlmsg_flags nlreq 0 ||| NLM_F_ACK)
      let rta := IFA_RTA (NLMSG_DATA 0)
      let nlreq := wr16 nlreq (rta + 2) IFA_LOCAL
      let nlreq := wr16 nlreq rta (RTA_LENGTH 1)
      let nlreq := wr8 nlreq (RTA_DATA rta) pn_address
      let nlreq := wr32 nlreq 0 (NLMSG_ALIGN (nlmsg_len nlreq 0) + RTA_LENGTH 1)
      .ok { s with nlreq := nlreq }

/-- Lines 97-143 of phonet.c: one iteration of the option loop. -/
def phonet_option (s : OptState) : Opt → Except Nat OptState
  | .a scan => phonet_addr_option s RTM_NEWADDR scan
  | .d scan => phonet_addr_option s RTM_DELADDR scan
  | .l =>
    let nlreq := wr16 s.nlreq 4 RTM_GETADDR
    let nlreq := wr16 nlreq 6 (nlmsg_flags nlreq 0 ||| (NLM_F_ROOT ||| NLM_F_MATCH))
    .ok { s with nlreq := nlreq, display_info := true }
  | .i ifindex => if ifindex = 0 then .error 1 else .ok { s with ifa_index := ifindex }
  | .h => .error 0
  | .other => .error 1

/-- Lines 90-144 of phonet.c: the option loop over the options of the command line. -/
def phonet_options (s : OptState) : List Opt → Except Nat OptState
  | [] => .ok s
  | o :: os =>
    match phonet_option s o with
    | .error code => .error code
    | .ok s1 => phonet_options s1 os

/-- Lines 81-150 of phonet.c: the request as it stands when control reaches `socket`, or the
status of an earlier `exit`. -/
def phonet_request (opts : List Opt) : Except Nat OptState :=
  match phonet_options phonet_init opts with
  | .error code => .error code
  | .ok s =>
    if nlmsg_type s.nlreq 0 = NOT_SET then
      .error 1
    else
      let nlreq := wr32 s.nlreq (NLMSG_DATA 0 + 4) s.ifa_index
      if s.ifa_index = 0 then .error 1 else .ok { s with nlreq := nlreq }

/-! ## pnroute.c: print_route -/

/-- What one run of the attribute loop of `print_route` did. -/
structure RtaOut where
  /-- The attributes the loop body ran for: address, `rta_len`, `rta_type`. -/
  attrs : List (Nat × Nat × Nat)
  /-- Every memory access of the loop: address and size in bytes. -/
  reads : List (Nat × Nat)
  /-- Final value of the variable `dst`. -/
  dst : Nat
  /-- The interface indexes passed to `if_indextoname`, in order. -/
  oifs : List Nat
  deriving DecidableEq, Repr

/-- Lines 59-71 of pnroute.c: the loop `for (rta = ...; RTA_OK (rta, len); rta = RTA_NEXT (rta,
len))` from the attribute at `rta` with `len` bytes left and the current value of `dst`.
`RTA_OK` reads `rta_len` only if `len >= 4`. One unit of fuel is used per test of the loop
condition; `none` means the fuel ran out. `len` is an `int`: as `4 <= len` and the step is at
most 65536 the subtraction cannot overflow. -/
def rtaLoop (m : Mem) : Nat → Nat → Int → Nat → Option RtaOut
  | 0, _, _, _ => none
  | fuel + 1, rta, len, dst =>
    if 4 ≤ len then
      if RTA_OK m rta len then
        let next := rtaLoop m fuel (rta + RTA_ALIGN (rta_len m rta)) (len - RTA_ALIGN (rta_len m rta))
        let hdr := [(rta, 2), (rta + 2, 2)]
        let attr := (rta, rta_len m rta, rta_type m rta)
        if rta_type m rta = RTA_DST then
          (next (rd8 m (RTA_DATA rta))).map fun o =>
            { o with attrs := attr :: o.attrs, reads := hdr ++ (RTA_DATA rta, 1) :: o.reads }
        else if rta_type m rta = RTA_OIF then
          (next dst).map fun o =>
            { o with attrs := attr :: o.attrs, reads := hdr ++ (RTA_DATA rta, 4) :: o.reads,
                     oifs := rd32 m (RTA_DATA rta) :: o.oifs }
        else
          (next dst).map fun o => { o with attrs := attr :: o.attrs, reads := hdr ++ o.reads }
      else
        some { attrs := [], reads := [(rta, 2)], dst := dst, oifs := [] }
    else
      some { attrs := [], reads := [], dst := dst, oifs := [] }

/-- Lines 50-71 of pnroute.c: the attribute walk of `print_route` on the message at `nlh`,
started with `dst = 0xFF`; the fuel is one more than the largest number of attributes that fit
in `len` bytes. -/
def route_attrs (m : Mem) (nlh : Nat) : Option RtaOut :=
  rtaLoop m ((RTM_PAYLOAD m nlh).toNat / 4 + 1) (RTM_RTA (NLMSG_DATA nlh)) (RTM_PAYLOAD m nlh) 255

/-- A line written to standard output by a data decoder. -/
inductive Line where
  /-- Line of `print_route`: the destination and the indexes given to `if_indextoname`. -/
  | route (dst : Nat) (oifs : List Nat)
  /-- Line of the address printer of phonet.c. -/
  | addr (pn_address : Nat)
  deriving DecidableEq, Repr

/-- Lines 48-74 of pnroute.c: `print_route`; `none` only if the attribute loop ran out of
fuel. -/
def print_route (m : Mem) (nlh : Nat) : Option (List Line) :=
  if rd8 m (NLMSG_DATA nlh) ≠ AF_PHONET then some []
  else (route_attrs m nlh).map fun o => [Line.route o.dst o.oifs]

/-! ## The response dispatcher of both tools -/

/-- The tool whose dispatcher runs; the address tool with its variables `display_info` and
`ifa_index`. -/
inductive Tool where
  /-- The route tool pnroute.c. -/
  | pnroute
  /-- The address tool phonet.c. -/
  | phonet (display_info : Bool) (ifa_index : Nat)
  deriving DecidableEq, Repr

/-- Whether the tool hands a message of type `type` to its data decoder: line 212 of pnroute.c,
lines 239-242 of phonet.c. -/
def Tool.isData : Tool → Nat → Bool
  | .pnroute, type => decide (type = RTM_NEWROUTE)
  | .phonet display_info _, type => display_info && decide (type = RTM_NEWADDR)

/-- The data decoder: `print_route` (pnroute.c line 213), or the block of lines 243-250 of
phonet.c. -/
def Tool.decode : Tool → Mem → Nat → Option (List Line)
  | .pnroute, m, nlh => print_route m nlh
  | .phonet _ ifa_index, m, nlh =>
    let ifa := NLMSG_DATA nlh
    if rd32 m (ifa + 4) = ifa_index then
      let rta := IFA_RTA ifa
      if rta_type m rta = IFA_LOCAL then some [Line.addr (rd8 m (RTA_DATA rta))] else some []
    else some []

/-- How the walk of one receive buffer ended. -/
inductive WalkResult where
  /-- `goto out` (pnroute.c) or `exit_loop = 1; break` (phonet.c). -/
  | done
  /-- `errno = -err->error`, then `goto err` (pnroute.c) or `exit (1)` (phonet.c). -/
  | failed (errno : Int)
  /-- The loop condition `NLMSG_OK` failed: back to `recvmsg`. -/
  | more
  deriving DecidableEq, Repr

/-- What the walk of one receive buffer did. -/
structure WalkOut where
  /-- How the walk ended. -/
  result : WalkResult
  /-- Addresses of the messages the loop body ran for, in order. -/
  visited : List Nat
  /-- Addresses of the messages handed to the data decoder, in order. -/
  decoded : List Nat
  /-- Lines printed by the data decoder. -/
  printed : List Line
  deriving DecidableEq, Repr

/-- The walk after one more message at `nlh` that is no terminator. -/
def WalkOut.after (nlh : Nat) (isData : Bool) (lines : List Line) (o : WalkOut) : WalkOut :=
  { result := o.result
    visited := nlh :: o.visited
    decoded := if isData then nlh :: o.decoded else o.decoded
    printed := lines ++ o.printed }

/-- Lines 192-214 of pnroute.c and 218-252 of phonet.c: the loop `for (nlh = ...; NLMSG_OK (nlh,
(size_t)ret); nlh = NLMSG_NEXT (nlh, ret))` from the message at `nlh` with the signed count
`ret`. `NLMSG_NEXT` subtracts `NLMSG_ALIGN (nlmsg_len)` from `ret` and adds it to `nlh`. One unit
of fuel is used per test of the loop condition; `none` means the fuel ran out. `errno` is an
`int`: the negation `-err->error` is taken in `int` (`negInt32`). -/
def walk (w : Nat) (t : Tool) (m : Mem) : Nat → Nat → Int → Option WalkOut
  | 0, _, _ => none
  | fuel + 1, nlh, ret =>
    if NLMSG_OK m nlh (sizeT w ret) then
      if nlmsg_type m nlh = NLMSG_DONE then
        some { result := .done, visited := [nlh], decoded := [], printed := [] }
      else if nlmsg_type m nlh = NLMSG_ERROR then
        if rdS32 m (NLMSG_DATA nlh) ≠ 0 then
          some { result := .failed (negInt32 (rdS32 m (NLMSG_DATA nlh))), visited := [nlh],
                 decoded := [],
                 printed := [] }
        else
          some { result := .done, visited := [nlh], decoded := [], printed := [] }
      else
        let next := walk w t m fuel (nlh + NLMSG_ALIGN (nlmsg_len m nlh))
          (ret - NLMSG_ALIGN (nlmsg_len m nlh))
        if t.isData (nlmsg_type m nlh) then
          match t.decode m nlh with
          | none => none
          | some lines => next.map (WalkOut.after nlh true lines)
        else
          next.map (WalkOut.after nlh false [])
    else
      some { result := .more, visited := [], decoded := [], printed := [] }

/-! ## The receive loop of both tools -/

/-- What one call of `recvmsg` returned. -/
inductive Recv where
  /-- Return value -1 with this `errno`. -/
  | fail (errno : Nat)
  /-- Return value `bytes.length`, the bytes stored in the buffer, and whether `MSG_TRUNC` is
  set in `msg_flags`. -/
  | dgram (bytes : List Nat) (trunc : Bool)
  deriving DecidableEq, Repr

/-- The receive buffer after `recvmsg` stored `bytes` at its start; the rest keeps its old
content. -/
def recvInto (stale : Mem) (bytes : List Nat) : Mem :=
  fun i => if i < bytes.length then bytes.getD i 0 else stale i

/-- Where a run of a tool stands. -/
inductive Status where
  /-- The process ended with this exit status. -/
  | exited (code : Nat)
  /-- The tool is blocked in `recvmsg`: every given outcome was consumed. -/
  | blocked
  /-- The message walk did not end within the fuel. -/
  | spinning
  deriving DecidableEq, Repr

/-- One call of `recvmsg` that returned, with the message walk that followed it, if any. -/
structure StepRec where
  /-- What `recvmsg` returned. -/
  outcome : Recv
  /-- The walk of the received buffer; `none` when no walk was run or it did not end. -/
  walked : Option WalkOut
  deriving DecidableEq, Repr

/-- Lines 170-223 of pnroute.c and 193-256 of phonet.c: the receive loop, over the outcomes of
the successive `recvmsg` calls, from the buffer content `buf`. Returns where the run stands and
one record per call that returned. -/
def recvLoop (w : Nat) (t : Tool) (fuel : Nat) : Mem → List Recv → Status × List StepRec
  | _, [] => (.blocked, [])
  | buf, .fail errno :: rs =>
    if errno = EINTR then
      ((recvLoop w t fuel buf rs).1, ⟨.fail errno, none⟩ :: (recvLoop w t fuel buf rs).2)
    else
      (.exited 1, [⟨.fail errno, none⟩])
  | buf, .dgram bytes trunc :: rs =>
    if bytes.length = 0 then
      (.exited 0, [⟨.dgram bytes trunc, none⟩])
    else if trunc then
      (.exited 1, [⟨.dgram bytes trunc, none⟩])
    else
      match walk w t (recvInto buf bytes) fuel 0 bytes.length with
      | none => (.spinning, [⟨.dgram bytes trunc, none⟩])
      | some o =>
        match o.result with
        | .done => (.exited 0, [⟨.dgram bytes trunc, some o⟩])
        | .failed _ => (.exited 1, [⟨.dgram bytes trunc, some o⟩])
        | .more =>
          ((recvLoop w t fuel (recvInto buf bytes) rs).1,
            ⟨.dgram bytes trunc, some o⟩ :: (recvLoop w t fuel (recvInto buf bytes) rs).2)

/-! ## The two programs -/

/-- What the kernel and libc answer during one run. -/
structure Env where
  /-- Whether `socket` succeeds. -/
  socketOk : Bool
  /-- Whether `setsockopt (SO_SNDBUF)` succeeds (phonet.c only). -/
  sndbufOk : Bool
  /-- Whether `setsockopt (SO_RCVBUF)` succeeds (phonet.c only). -/
  rcvbufOk : Bool
  /-- Whether `bind` succeeds (phonet.c only). -/
  bindOk : Bool
  /-- Whether `sendto` succeeds. -/
  sendOk : Bool
  /-- The outcomes of the successive `recvmsg` calls. -/
  recvs : List Recv
  /-- Value of `getpid ()`. -/
  pid : Nat
  /-- Value of `time (NULL)`. -/
  time : Nat
  /-- Indeterminate initial content of automatic storage (the `req` of pnroute.c). -/
  stack : Mem

/-- One run of a tool, as seen from outside. -/
structure Run where
  /-- Where the run stands. -/
  status : Status
  /-- Number of calls of `socket`. -/
  sockets : Nat
  /-- The byte strings handed to `sendto`. -/
  sent : List (List Nat)
  /-- The calls of `recvmsg` that returned. -/
  steps : List StepRec
  deriving DecidableEq, Repr

/-- The function `main` of pnroute.c. -/
def pnroute_main (w fuel : Nat) (a : RouteArgs) (e : Env) : Run :=
  match pnroute_request a e.pid e.stack with
  | .error code => { status := .exited code, sockets := 0, sent := [], steps := [] }
  | .ok req =>
    if !e.socketOk then
      { status := .exited 1, sockets := 1, sent := [], steps := [] }
    else if !e.sendOk then
      { status := .exited 1, sockets := 1, sent := [bytesOf req (nlmsg_len req 0)], steps := [] }
    else
      { status := (recvLoop w .pnroute fuel req e.recvs).1
        sockets := 1
        sent := [bytesOf req (nlmsg_len req 0)]
        steps := (recvLoop w .pnroute fuel req e.recvs).2 }

/-- The function `main` of phonet.c; the receive buffer `nlreq.buf` is cleared after the
request is sent. -/
def phonet_main (w fuel : Nat) (opts : List Opt) (e : Env) : Run :=
  match phonet_request opts with
  | .error code => { status := .exited code, sockets := 0, sent := [], steps := [] }
  | .ok s =>
    if !e.socketOk then
      { status := .exited 1, sockets := 1, sent := [], steps := [] }
    else if !e.sndbufOk || !e.rcvbufOk || !e.bindOk then
      { status := .exited 1, sockets := 1, sent := [], steps := [] }
    else
      let nlreq := wr32 s.nlreq 8 e.time
      if !e.sendOk then
        { status := .exited 1, sockets := 1, sent := [bytesOf nlreq (nlmsg_len nlreq 0)],
          steps := [] }
      else
        { status := (recvLoop w (.phonet s.display_info s.ifa_index) fuel zeroMem e.recvs).1
          sockets := 1
          sent := [bytesOf nlreq (nlmsg_len nlreq 0)]
          steps := (recvLoop w (.phonet s.display_info s.ifa_index) fuel zeroMem e.recvs).2 }

/-! ## Concrete inputs -/

/-- An environment in which every call succeeds and `recvmsg` has returned nothing yet. -/
def envOk : Env :=
  { socketOk := true, sndbufOk := true, rcvbufOk := true, bindOk := true, sendOk := true,
    recvs := [], pid := 1, time := 0, stack := zeroMem }

/-- The attribute loop of `print_route` run on the request that `main` of pnroute.c built for
the command line `a`: the round trip of the route tool. -/
def pnroute_roundtrip (a : RouteArgs) (pid : Nat) (stack : Mem) : Option RtaOut :=
  match pnroute_request a pid stack with
  | .error _ => none
  | .ok req => route_attrs req 0

/-- Automatic storage whose bytes 44..48 happen to hold `05 00 01 00 ff`. -/
def staleAttr : Mem := listMem (List.replicate 44 0 ++ [5, 0, 1, 0, 255])

/-- A 32-byte `RTM_NEWROUTE` message for `AF_PHONET` whose only attribute is an `RTA_OIF` with
`rta_len = 4`, that is without a value. -/
def shortOifMsg : List Nat :=
  [32, 0, 0, 0, 24, 0, 0, 0, 0, 0, 0, 0, 0, 0, 0, 0,
   35, 6, 0, 0, 254, 4, 0, 1, 0, 0, 0, 0,
   4, 0, 4, 0]

/-- A 17-byte datagram: one message of type 0 with `nlmsg_len = 17`. -/
def oddDatagram : List Nat := [17, 0, 0, 0, 0, 0, 0, 0, 0, 0, 0, 0, 0, 0, 0, 0, 0]

/-- A receive buffer whose bytes 20..35 still hold an `NLMSG_DONE` header of an earlier
datagram. -/
def staleDone : Mem := listMem (List.replicate 20 0 ++ [16, 0, 0, 0, 3, 0, 0, 0])

/-! ## Receive buffers made of complete messages -/

/-- The two bytes of a little-endian `uint16_t`. -/
def le16 (x : Nat) : List Nat := [x % 256, x / 256 % 256]

/-- The four bytes of a little-endian `uint32_t`. -/
def le32 (x : Nat) : List Nat := [x % 256, x / 256 % 256, x / 65536 % 256, x / 16777216 % 256]

/-- A netlink message as it lies in a receive buffer: the header fields, the payload bytes and
the padding bytes behind them. -/
structure Msg where
  /-- Field `nlmsg_type`. -/
  type : Nat
  /-- Field `nlmsg_flags`. -/
  flags : Nat
  /-- Field `nlmsg_seq`. -/
  seq : Nat
  /-- Field `nlmsg_pid`. -/
  pid : Nat
  /-- The payload bytes. -/
  payload : List Nat
  /-- The padding bytes up to the next message. -/
  pad : List Nat
  deriving DecidableEq, Repr

/-- The logical length `nlmsg_len` of a message: header and payload, without padding. -/
def Msg.len (m : Msg) : Nat := NLMSG_LENGTH m.payload.length

/-- The bytes of a message: header, payload, padding. -/
def Msg.encode (m : Msg) : List Nat :=
  le32 m.len ++ le16 m.type ++ le16 m.flags ++ le32 m.seq ++ le32 m.pid ++ (m.payload ++ m.pad)

/-- A complete, 4-byte-aligned message: the type is a `uint16_t`, the padding fills the message
up to `NLMSG_ALIGN (nlmsg_len)` bytes, and an `NLMSG_ERROR` message holds its `error` field. -/
def Msg.Complete (m : Msg) : Prop :=
  m.type < 65536 ∧ m.len + m.pad.length = NLMSG_ALIGN m.len ∧
    (m.type = NLMSG_ERROR → 4 ≤ m.payload.length)

instance (m : Msg) : Decidable m.Complete := by
  unfold Msg.Complete
  infer_instance

/-- The bytes of a buffer holding the messages `msgs` one after the other. -/
def encodeAll : List Msg → List Nat
  | [] => []
  | m :: ms => m.encode ++ encodeAll ms

/-- The field `error` of the `struct nlmsgerr` carried by an `NLMSG_ERROR` message. -/
def Msg.error (m : Msg) : Int := rdS32 (listMem m.payload) 0

/-- An `NLMSG_DONE` or `NLMSG_ERROR` message. -/
def Msg.isTerminator (m : Msg) : Bool := m.type == NLMSG_DONE || m.type == NLMSG_ERROR

/-- Specification of the dispatcher (spec section 4.4): the outcome is decided by the first
`NLMSG_DONE` or `NLMSG_ERROR` message alone: `Done` on a done marker or an ACK with status 0,
`Failed` with the negated status on an ACK with another status; without such a message the
transaction goes on. -/
def spec_outcome (msgs : List Msg) : WalkResult :=
  match (msgs.filter Msg.isTerminator).head? with
  | none => .more
  | some m =>
    if m.type = NLMSG_DONE then .done
    else if m.error = 0 then .done
    else .failed (- m.error)

/-- The outcome of the specification with the status negated the way the tools do it, in `int`:
`Failed` carries `negInt32` of the status, which is the negated status except for the status
`INT_MIN`. -/
def int_outcome (msgs : List Msg) : WalkResult :=
  match (msgs.filter Msg.isTerminator).head? with
  | none => .more
  | some m =>
    if m.type = NLMSG_DONE then .done
    else if m.error = 0 then .done
    else .failed (negInt32 m.error)

/-- The address of each message of a buffer whose first message lies at `off`. -/
def offsets (off : Nat) : List Msg → List Nat
  | [] => []
  | m :: ms => off :: offsets (off + m.encode.length) ms

/-- The addresses of the messages that the tool `t` treats as data, in a buffer whose first
message lies at `off`. -/
def dataOffsets (t : Tool) (off : Nat) : List Msg → List Nat
  | [] => []
  | m :: ms =>
    if t.isData m.type then off :: dataOffsets t (off + m.encode.length) ms
    else dataOffsets t (off + m.encode.length) ms

/-- The exit status that goes with the end of a walk, if the walk ends the transaction. -/
def WalkResult.exitStatus : WalkResult → Option Nat
  | .done => some 0
  | .failed _ => some 1
  | .more => none

/-- An `RTM_NEWROUTE` message of the kernel: a `struct rtmsg` for `AF_PHONET`, then `RTA_DST`
with the value `0x10` and `RTA_OIF` with the value 1. -/
def routeMsg : Msg :=
  { type := RTM_NEWROUTE, flags := 2, seq := 0, pid := 1,
    payload := [35, 6, 0, 0, 254, 4, 0, 1, 0, 0, 0, 0] ++ [5, 0, 1, 0, 16, 0, 0, 0] ++
      [8, 0, 4, 0, 1, 0, 0, 0],
    pad := [] }

/-- An `NLMSG_ERROR` message: the `error` field, as a `uint32_t`, and the 16-byte header of the
request it answers. -/
def ackMsg (error : Nat) : Msg :=
  { type := NLMSG_ERROR, flags := 0, seq := 0, pid := 1,
    payload := le32 error ++ List.replicate 16 0, pad := [] }

/-- An `NLMSG_DONE` message. -/
def doneMsg : Msg :=
  { type := NLMSG_DONE, flags := 2, seq := 0, pid := 1, payload := [0, 0, 0, 0], pad := [] }

/-! ## Kinds of receive outcome -/

/-- The kinds of outcome of `recvmsg` that the receive loop tells apart. -/
inductive RecvKind where
  /-- Return value -1 with `errno == EINTR`. -/
  | eintr
  /-- Return value -1 with another `errno`. -/
  | failure
  /-- Return value 0. -/
  | zero
  /-- A positive return value with `MSG_TRUNC` set. -/
  | truncated
  /-- A positive return value without `MSG_TRUNC`: a buffer of messages. -/
  | buffer
  deriving DecidableEq, Repr

/-- The kind of an outcome of `recvmsg`. -/
def Recv.kind : Recv → RecvKind
  | .fail errno => if errno = EINTR then .eintr else .failure
  | .dgram bytes trunc =>
    if bytes.length = 0 then .zero else if trunc then .truncated else .buffer

/-! ## Usage errors -/

/-- The usage errors of the address tool named by the specification: an address that `sscanf`
does not convert, a converted address with one of its low two bits set, a device name that
`if_nametoindex` does not resolve. -/
def Opt.isUsageError : Opt → Bool
  | .a none => true
  | .d none => true
  | .a (some v) => v % 256 % 4 != 0
  | .d (some v) => v % 256 % 4 != 0
  | .i ifindex => ifindex == 0
  | _ => false

/-- The usage errors of the route tool, for a command line with arguments: a wrong number of
arguments, an unknown verb, a destination that `strtoul` does not convert to the end, that is
above 255 or has one of its low two bits set, a device name that `if_nametoindex` does not
resolve. -/
def RouteArgs.isUsageError (a : RouteArgs) : Bool :=
  decide (a.argc ≠ 4) || (a.verb != "add" && a.verb != "del") || decide (a.endc ≠ 0) ||
    decide (256 ≤ a.dst) || decide (a.dst % 4 ≠ 0) || decide (a.ifindex = 0)

/-- A call of `recvmsg` behind which the tool ends with a failure: a failure other than
`EINTR`, a truncated datagram, or a buffer whose walk met an ACK with a status other than 0. -/
def StepRec.isFailure (s : StepRec) : Prop :=
  s.outcome.kind = RecvKind.failure ∨ s.outcome.kind = RecvKind.truncated ∨
    ∃ o errno, s.walked = some o ∧ o.result = WalkResult.failed errno

/-- A call of `recvmsg` behind which the tool ends with success: a zero-length read, or a
buffer whose walk met a done marker or an ACK with status 0. -/
def StepRec.isSuccess (s : StepRec) : Prop :=
  s.outcome.kind = RecvKind.zero ∨ ∃ o, s.walked = some o ∧ o.result = WalkResult.done

/-! ## pnstat.c: the key of the inode tree -/

/-- The `struct fd` of pnstat.c (lines 39-43): a socket inode and the process that holds it;
both fields are `unsigned long`. -/
structure Fd where
  /-- Field `inode`. -/
  inode : Nat
  /-- Field `pid`. -/
  pid : Nat
  deriving DecidableEq, Repr

/-- Lines 45-49 of pnstat.c: `inocmp` returns `fa->inode - fb->inode`. The difference is taken in
`unsigned long`, that is modulo `2 ^ w` for an `unsigned long` of `w` bits (32 or 64), and the
`return` converts it to `int`, keeping the low 32 bits as a two's complement number. -/
def inocmp (w : Nat) (fa fb : Fd) : Int :=
  toInt32 (((fa.inode : Int) - (fb.inode : Int)) % (2 : Int) ^ w)

/-! # Proofs -/

/-! ## Loads after stores -/

theorem rd8_wr8 (m : Mem) (a v b : Nat) :
    rd8 (wr8 m a v) b = if b = a then v % 256 else rd8 m b := by
  unfold rd8 wr8
  split <;> simp

theorem wr8_of_ne (m : Mem) (a v x : Nat) (h : x ≠ a) : wr8 m a v x = m x := by
  simp [wr8, h]

theorem length_bytesOf (m : Mem) (n : Nat) : (bytesOf m n).length = n := by
  simp [bytesOf]

theorem NLMSG_LENGTH_eq (n : Nat) : NLMSG_LENGTH n = n + 16 := rfl

theorem NLMSG_DATA_eq (nlh : Nat) : NLMSG_DATA nlh = nlh + 16 := rfl

theorem RTA_LENGTH_eq (n : Nat) : RTA_LENGTH n = 4 + n := rfl

theorem RTA_DATA_eq (rta : Nat) : RTA_DATA rta = rta + 4 := rfl

theorem RTM_RTA_eq (rtm : Nat) : RTM_RTA rtm = rtm + 12 := rfl

theorem IFA_RTA_eq (ifa : Nat) : IFA_RTA ifa = ifa + 8 := rfl

theorem NLMSG_SPACE_rtmsg : NLMSG_SPACE 12 = 28 := rfl

/-- Reassembling the four bytes of a 32-bit store. -/
theorem le32_value (x : Nat) :
    x % 256 + 256 * (x / 256 % 256) + 65536 * (x / 65536 % 256) +
      16777216 * (x / 16777216 % 256) = x % 4294967296 := by
  omega

/-- Reassembling the two bytes of a 16-bit store. -/
theorem le16_value (x : Nat) : x % 256 + 256 * (x / 256 % 256) = x % 65536 := by
  omega

/-! ## The request of the address tool -/

theorem phonet_init_fields :
    nlmsg_len phonet_init.nlreq 0 = 24 ∧ nlmsg_type phonet_init.nlreq 0 = NOT_SET ∧
      nlmsg_flags phonet_init.nlreq 0 = NLM_F_REQUEST ∧ phonet_init.ifa_index = 0 := by
  decide

theorem phonet_options_append (s : OptState) (xs ys : List Opt) :
    phonet_options s (xs ++ ys) =
      match phonet_options s xs with
      | .error code => .error code
      | .ok s1 => phonet_options s1 ys := by
  induction xs generalizing s with
  | nil => simp [phonet_options]
  | cons o os ih =>
    simp only [List.cons_append, phonet_options]
    cases phonet_option s o with
    | error c => simp
    | ok s1 => simpa using ih s1

/-- Options `-l` and `-i DEVICE` (resolvable) leave `nlmsg_len` alone and never stop the
tool. -/
theorem phonet_options_list_dev (os : List Opt) (s : OptState)
    (h : ∀ o ∈ os, o = Opt.l ∨ ∃ k, k ≠ 0 ∧ o = Opt.i k) :
    ∃ s1, phonet_options s os = .ok s1 ∧ nlmsg_len s1.nlreq 0 = nlmsg_len s.nlreq 0 ∧
      (nlmsg_type s.nlreq 0 ≠ NOT_SET → nlmsg_type s1.nlreq 0 ≠ NOT_SET) ∧
      (s.ifa_index ≠ 0 → s1.ifa_index ≠ 0) ∧
      ((∃ k, Opt.i k ∈ os) → s1.ifa_index ≠ 0) := by
  induction os generalizing s with
  | nil => exact ⟨s, rfl, rfl, id, id, by simp⟩
  | cons o os ih =>
    have ho := h o (List.mem_cons_self _ _)
    have hos : ∀ o ∈ os, o = Opt.l ∨ ∃ k, k ≠ 0 ∧ o = Opt.i k :=
      fun x hx => h x (List.mem_cons_of_mem _ hx)
    rcases ho with rfl | ⟨k, hk, rfl⟩
    · obtain ⟨s1, h1, h2, h3, h4, h5⟩ := ih
        { s with nlreq := wr16 (wr16 s.nlreq 4 RTM_GETADDR) 6
                   (nlmsg_flags (wr16 s.nlreq 4 RTM_GETADDR) 0 ||| (NLM_F_ROOT ||| NLM_F_MATCH)),
                 display_info := true } hos
      refine ⟨s1, by simpa [phonet_options, phonet_option] using h1, ?_, ?_, h4, ?_⟩
      · rw [h2]
        simp [nlmsg_len, rd32, wr16, rd8_wr8]
      · intro _
        apply h3
        simp [nlmsg_type, rd16, wr16, rd8_wr8, RTM_GETADDR, NOT_SET]
      · rintro ⟨k, hk⟩
        simp only [List.mem_cons, reduceCtorEq, false_or] at hk
        exact h5 ⟨k, hk⟩
    · obtain ⟨s1, h1, h2, h3, h4, -⟩ := ih { s with ifa_index := k } hos
      refine ⟨s1, by simpa [phonet_options, phonet_option, hk] using h1, h2, h3, ?_, ?_⟩
      · intro _
        exact h4 hk
      · intro _
        exact h4 hk

/-- A valid `-a` / `-d` option sets `nlmsg_len` to `NLMSG_ALIGN (nlmsg_len) + RTA_LENGTH (1)`. -/
theorem phonet_addr_option_ok (s : OptState) (type v : Nat) (hv : v % 256 % 4 = 0) :
    ∃ s1, phonet_addr_option s type (some v) = .ok s1 ∧
      nlmsg_len s1.nlreq 0 = (NLMSG_ALIGN (nlmsg_len s.nlreq 0) + RTA_LENGTH 1) % 4294967296 ∧
      nlmsg_type s1.nlreq 0 = type % 65536 ∧ s1.ifa_index = s.ifa_index := by
  refine ⟨_, by simp only [phonet_addr_option, hv]; rfl, ?_, ?_, ?_⟩
  · simp only [nlmsg_len, nlmsg_flags, rd32, rd16, wr32, wr16, rd8_wr8, NLMSG_DATA_eq,
      IFA_RTA_eq, RTA_DATA_eq, RTA_LENGTH_eq]
    simp [le32_value]
  · simp only [nlmsg_type, nlmsg_flags, rd32, rd16, wr32, wr16, rd8_wr8, NLMSG_DATA_eq,
      IFA_RTA_eq, RTA_DATA_eq, RTA_LENGTH_eq]
    simp [le16_value]
  · rfl


/-- The request of a command line with one valid `-a` / `-d` option among `-l` and resolvable
`-i` options, one `-i` at least. -/
theorem phonet_request_single (pre post : List Opt) (op : Opt) (v : Nat)
    (hop : op = Opt.a (some v) ∨ op = Opt.d (some v)) (hv : v % 256 % 4 = 0)
    (hpre : ∀ o ∈ pre, o = Opt.l ∨ ∃ k, k ≠ 0 ∧ o = Opt.i k)
    (hpost : ∀ o ∈ post, o = Opt.l ∨ ∃ k, k ≠ 0 ∧ o = Opt.i k)
    (hi : ∃ k, Opt.i k ∈ pre ++ post) :
    ∃ s, phonet_request (pre ++ op :: post) = .ok s ∧ nlmsg_len s.nlreq 0 = 29 := by
  obtain ⟨s1, e1, l1, -, -, j1⟩ := phonet_options_list_dev pre phonet_init hpre
  obtain ⟨type, htype, hstep⟩ : ∃ type, (type = RTM_NEWADDR ∨ type = RTM_DELADDR) ∧
      phonet_option s1 op = phonet_addr_option s1 type (some v) := by
    rcases hop with rfl | rfl
    · exact ⟨RTM_NEWADDR, Or.inl rfl, rfl⟩
    · exact ⟨RTM_DELADDR, Or.inr rfl, rfl⟩
  obtain ⟨s2, e2, l2, t2, i2⟩ := phonet_addr_option_ok s1 type v hv
  obtain ⟨s3, e3, l3, t3, i3, j3⟩ := phonet_options_list_dev post s2 hpost
  have hrun : phonet_options phonet_init (pre ++ op :: post) = .ok s3 := by
    rw [phonet_options_append, e1]
    simp only [phonet_options, hstep, e2, e3]
  have hlen : nlmsg_len s3.nlreq 0 = 29 := by
    rw [l3, l2, l1, phonet_init_fields.1]
    rfl
  have htyp : nlmsg_type s3.nlreq 0 ≠ NOT_SET := by
    apply t3
    rw [t2]
    rcases htype with rfl | rfl <;> decide
  have hidx : s3.ifa_index ≠ 0 := by
    obtain ⟨k, hk⟩ := hi
    rcases List.mem_append.1 hk with hk | hk
    · exact i3 (i2 ▸ j1 ⟨k, hk⟩)
    · exact j3 ⟨k, hk⟩
  refine ⟨{ s3 with nlreq := wr32 s3.nlreq (NLMSG_DATA 0 + 4) s3.ifa_index }, ?_, ?_⟩
  · simp only [phonet_request, hrun, htyp, hidx, if_false]
  · rw [← hlen]
    simp [nlmsg_len, rd32, wr32, rd8_wr8, NLMSG_DATA_eq]

/-! ## The request of the route tool -/

theorem pnroute_init_fields (pid : Nat) (stack : Mem) :
    nlmsg_len (pnroute_init pid stack) 0 = 28 ∧
      nlmsg_flags (pnroute_init pid stack) 0 = NLM_F_REQUEST ∧
      ∀ x, 28 ≤ x → pnroute_init pid stack x = stack x := by
  refine ⟨?_, ?_, ?_⟩
  · simp [pnroute_init, nlmsg_len, rd32, wr32, wr16, rd8_wr8, NLMSG_LENGTH_eq, NLMSG_DATA_eq]
  · simp [pnroute_init, nlmsg_flags, rd16, wr32, wr16, rd8_wr8, NLMSG_LENGTH_eq, NLMSG_DATA_eq,
      NLM_F_REQUEST]
  · intro x hx
    simp (disch := omega) only [pnroute_init, wr32, wr16, wr8_of_ne, NLMSG_DATA_eq]

theorem pnroute_add_dst_fields (req : Mem) (dst : Nat) :
    nlmsg_len (pnroute_add_dst req dst) 0 = (nlmsg_len req 0 + 9) % 4294967296 ∧
      nlmsg_flags (pnroute_add_dst req dst) 0 = (nlmsg_flags req 0 ||| NLM_F_ACK) % 65536 ∧
      nlmsg_type (pnroute_add_dst req dst) 0 = nlmsg_type req 0 ∧
      rta_len (pnroute_add_dst req dst) 28 = 5 ∧
      rta_type (pnroute_add_dst req dst) 28 = RTA_DST ∧
      rd8 (pnroute_add_dst req dst) 32 = dst % 256 ∧
      ∀ x, 33 ≤ x → pnroute_add_dst req dst x = req x := by
  refine ⟨?_, ?_, ?_, ?_, ?_, ?_, ?_⟩
  · simp only [pnroute_add_dst, nlmsg_len, rta_len, rd32, rd16, wr32, wr16, rd8_wr8,
      NLMSG_DATA_eq, RTM_RTA_eq, RTA_DATA_eq, RTA_LENGTH_eq]
    simp [le32_value]
  · simp only [pnroute_add_dst, nlmsg_len, nlmsg_flags, rta_len, rd32, rd16, wr32, wr16,
      rd8_wr8, NLMSG_DATA_eq, RTM_RTA_eq, RTA_DATA_eq, RTA_LENGTH_eq]
    simp [le16_value]
  · simp [pnroute_add_dst, nlmsg_type, rd16, wr32, wr16, rd8_wr8,
      NLMSG_DATA_eq, RTM_RTA_eq, RTA_DATA_eq, RTA_LENGTH_eq]
  · simp [pnroute_add_dst, rta_len, rd16, wr32, wr16, rd8_wr8,
      NLMSG_DATA_eq, RTM_RTA_eq, RTA_DATA_eq, RTA_LENGTH_eq]
  · simp [pnroute_add_dst, rta_type, rd16, wr32, wr16, rd8_wr8,
      NLMSG_DATA_eq, RTM_RTA_eq, RTA_DATA_eq, RTA_LENGTH_eq, RTA_DST]
  · simp [pnroute_add_dst, wr32, wr16, rd8_wr8,
      NLMSG_DATA_eq, RTM_RTA_eq, RTA_DATA_eq, RTA_LENGTH_eq]
  · intro x hx
    simp (disch := omega) only [pnroute_add_dst, wr32, wr16, wr8_of_ne, NLMSG_DATA_eq,
      RTM_RTA_eq, RTA_DATA_eq]

theorem pnroute_add_oif_fields (req : Mem) (ifindex : Nat) (h : rta_len req 28 = 5) :
    nlmsg_len (pnroute_add_oif req ifindex) 0 = (nlmsg_len req 0 + 12) % 4294967296 ∧
      (∀ x, 4 ≤ x → x < 36 → pnroute_add_oif req ifindex x = req x) ∧
      rta_len (pnroute_add_oif req ifindex) 36 = 8 ∧
      rta_type (pnroute_add_oif req ifindex) 36 = RTA_OIF ∧
      rd32 (pnroute_add_oif req ifindex) 40 = ifindex % 4294967296 ∧
      ∀ x, 44 ≤ x → pnroute_add_oif req ifindex x = req x := by
  have hrta : RTM_RTA (NLMSG_DATA 0) + RTA_ALIGN (rta_len req (RTM_RTA (NLMSG_DATA 0))) = 36 := by
    rw [show RTM_RTA (NLMSG_DATA 0) = 28 from rfl, h]
    rfl
  refine ⟨?_, ?_, ?_, ?_, ?_, ?_⟩
  · simp only [pnroute_add_oif, hrta]
    simp only [nlmsg_len, rta_len, rd32, rd16, wr32, wr16, rd8_wr8, RTA_DATA_eq, RTA_LENGTH_eq]
    simp [le32_value]
  · intro x h4 h36
    simp only [pnroute_add_oif, hrta]
    simp (disch := omega) only [wr32, wr16, wr8_of_ne, RTA_DATA_eq]
  · simp only [pnroute_add_oif, hrta]
    simp [rta_len, rd16, wr32, wr16, rd8_wr8, RTA_DATA_eq, RTA_LENGTH_eq]
  · simp only [pnroute_add_oif, hrta]
    simp [rta_type, rd16, wr32, wr16, rd8_wr8, RTA_DATA_eq, RTA_LENGTH_eq, RTA_OIF]
  · simp only [pnroute_add_oif, hrta]
    simp only [rd32, wr32, wr16, rd8_wr8, RTA_DATA_eq]
    simp [le32_value]
  · intro x hx
    simp only [pnroute_add_oif, hrta]
    simp (disch := omega) only [wr32, wr16, wr8_of_ne, RTA_DATA_eq]

/-- The request of an accepted listing command line. -/
theorem pnroute_request_list (a : RouteArgs) (pid : Nat) (stack : Mem) (h : a.argc ≤ 1) :
    ∃ req, pnroute_request a pid stack = .ok req ∧ nlmsg_len req 0 = 28 ∧
      nlmsg_type req 0 = RTM_GETROUTE ∧ nlmsg_flags req 0 = NLM_F_REQUEST ||| NLM_F_ROOT := by
  obtain ⟨hl, hf, -⟩ := pnroute_init_fields pid stack
  refine ⟨_, by simp only [pnroute_request, h, if_true]; rfl, ?_, ?_, ?_⟩
  · rw [← hl]
    simp [nlmsg_len, rd32, wr16, rd8_wr8]
  · simp [nlmsg_type, rd16, wr16, rd8_wr8, RTM_GETROUTE]
  · have hf2 : nlmsg_flags (wr16 (pnroute_init pid stack) 4 RTM_GETROUTE) 0 = NLM_F_REQUEST := by
      rw [← hf]
      simp [nlmsg_flags, rd16, wr16, rd8_wr8]
    rw [hf2]
    simp [nlmsg_flags, rd16, wr16, rd8_wr8, NLM_F_REQUEST, NLM_F_ROOT]

/-- The request of an accepted `add` / `del` command line: the header fields, the two
attributes, and the bytes from address 44 on, which `main` never stores to. -/
theorem pnroute_request_change (a : RouteArgs) (pid : Nat) (stack : Mem) (hc : a.argc = 4)
    (hverb : a.verb = "add" ∨ a.verb = "del") (hd : a.dst < 256) (hd4 : a.dst % 4 = 0)
    (he : a.endc = 0) (hi : a.ifindex ≠ 0) :
    ∃ req, pnroute_request a pid stack = .ok req ∧ nlmsg_len req 0 = 49 ∧
      nlmsg_type req 0 = (if a.verb = "add" then RTM_NEWROUTE else RTM_DELROUTE) ∧
      nlmsg_flags req 0 = NLM_F_REQUEST ||| NLM_F_ACK ∧
      (∀ x, 44 ≤ x → req x = stack x) ∧
      rta_len req 28 = 5 ∧ rta_type req 28 = RTA_DST ∧ rd8 req 32 = a.dst ∧
      rta_len req 36 = 8 ∧ rta_type req 36 = RTA_OIF ∧ rd32 req 40 = a.ifindex % 4294967296 := by
  have hverb2 : ¬(a.verb ≠ "add" ∧ a.verb ≠ "del") := by
    rcases hverb with h | h <;> simp [h]
  have hdst : ¬(256 ≤ a.dst ∨ a.dst % 4 ≠ 0 ∨ a.endc ≠ 0) := by
    simp [hd, hd4, he]
  have hc1 : ¬ a.argc ≤ 1 := by omega
  have hc4 : ¬ a.argc ≠ 4 := by simp [hc]
  obtain ⟨hl0, hf0, hs0⟩ := pnroute_init_fields pid stack
  generalize htype : (if a.verb = "add" then RTM_NEWROUTE else RTM_DELROUTE) = type
  have htype2 : type % 65536 = type := by
    rw [← htype]
    split <;> rfl
  generalize hr1 : wr16 (pnroute_init pid stack) 4 type = r1
  have hl1 : nlmsg_len r1 0 = 28 := by
    rw [← hl0, ← hr1]
    simp [nlmsg_len, rd32, wr16, rd8_wr8]
  have hf1 : nlmsg_flags r1 0 = NLM_F_REQUEST := by
    rw [← hf0, ← hr1]
    simp [nlmsg_flags, rd16, wr16, rd8_wr8]
  have ht1 : nlmsg_type r1 0 = type := by
    rw [← hr1]
    simp only [nlmsg_type, rd16, wr16, rd8_wr8]
    simp [le16_value, htype2]
  have hs1 : ∀ x, 28 ≤ x → r1 x = stack x := by
    intro x hx
    rw [← hr1, ← hs0 x hx]
    simp (disch := omega) only [wr16, wr8_of_ne]
  obtain ⟨hl2, hf2, ht2, ha2, hb2, hc2, hs2⟩ := pnroute_add_dst_fields r1 a.dst
  generalize hr2 : pnroute_add_dst r1 a.dst = r2 at hl2 hf2 ht2 ha2 hb2 hc2 hs2
  obtain ⟨hl3, hfr3, ha3, hb3, hc3, hs3⟩ := pnroute_add_oif_fields r2 a.ifindex ha2
  generalize hr3 : pnroute_add_oif r2 a.ifindex = r3 at hl3 hfr3 ha3 hb3 hc3 hs3
  have hreq : pnroute_request a pid stack = .ok r3 := by
    simp only [pnroute_request, hc1, hc4, hverb2, hdst, hi, if_false, htype, hr1, hr2, hr3]
  refine ⟨r3, hreq, ?_, ?_, ?_, ?_, ?_, ?_, ?_, ha3, hb3, hc3⟩
  · rw [hl3, hl2, hl1]
  · rw [← ht1, ← ht2]
    simp [nlmsg_type, rd16, rd8, hfr3]
  · have : nlmsg_flags r3 0 = nlmsg_flags r2 0 := by
      simp [nlmsg_flags, rd16, rd8, hfr3]
    rw [this, hf2, hf1]
    rfl
  · intro x hx
    rw [hs3 x hx, hs2 x (by omega), hs1 x (by omega)]
  · rw [← ha2]
    simp [rta_len, rd16, rd8, hfr3]
  · rw [← hb2]
    simp [rta_type, rd16, rd8, hfr3]
  · have : rd8 r3 32 = rd8 r2 32 := by
      simp [rd8, hfr3]
    rw [this, hc2]
    omega

/-- When control reaches `socket`, the command line was a listing or a valid `add` / `del`. -/
theorem pnroute_request_ok (a : RouteArgs) (pid : Nat) (stack req : Mem)
    (h : pnroute_request a pid stack = .ok req) :
    a.argc ≤ 1 ∨ (a.argc = 4 ∧ (a.verb = "add" ∨ a.verb = "del") ∧ a.dst < 256 ∧
      a.dst % 4 = 0 ∧ a.endc = 0 ∧ a.ifindex ≠ 0) := by
  by_cases h1 : a.argc ≤ 1
  · exact Or.inl h1
  by_cases h2 : a.argc ≠ 4
  · simp [pnroute_request, h1, h2] at h
  by_cases h3 : a.verb ≠ "add" ∧ a.verb ≠ "del"
  · simp [pnroute_request, h1, h2, h3] at h
  by_cases h4 : 256 ≤ a.dst ∨ a.dst % 4 ≠ 0 ∨ a.endc ≠ 0
  · simp only [pnroute_request, h1, h2, h3, h4, if_true, if_false, reduceCtorEq] at h
  by_cases h5 : a.ifindex = 0
  · simp only [pnroute_request, h1, h2, h3, h4, h5, if_true, if_false, reduceCtorEq] at h
  refine Or.inr ⟨by omega, ?_, by omega, by omega, by omega, h5⟩
  by_cases hv : a.verb = "add"
  · exact Or.inl hv
  · by_cases hw : a.verb = "del"
    · exact Or.inr hw
    · exact absurd ⟨hv, hw⟩ h3

/-! ## What is handed to sendto -/

theorem rd8_listMem_bytesOf (m : Mem) (n i : Nat) (h : i < n) :
    rd8 (listMem (bytesOf m n)) i = rd8 m i := by
  simp [rd8, listMem, bytesOf, List.getD, List.getElem?_map, List.getElem?_range, h]

theorem nlmsg_len_listMem_bytesOf (m : Mem) (n : Nat) (h : 4 ≤ n) :
    nlmsg_len (listMem (bytesOf m n)) 0 = nlmsg_len m 0 := by
  simp only [nlmsg_len, rd32]
  rw [rd8_listMem_bytesOf m n 0 (by omega), rd8_listMem_bytesOf m n (0 + 1) (by omega),
    rd8_listMem_bytesOf m n (0 + 2) (by omega), rd8_listMem_bytesOf m n (0 + 3) (by omega)]

/-- The route tool hands exactly `nlmsg_len` bytes to `sendto`. -/
theorem pnroute_sent_length (w fuel : Nat) (a : RouteArgs) (e : Env) :
    ∀ b ∈ (pnroute_main w fuel a e).sent, b.length = nlmsg_len (listMem b) 0 := by
  intro b hb
  unfold pnroute_main at hb
  cases hreq : pnroute_request a e.pid e.stack with
  | error c => simp [hreq] at hb
  | ok req =>
    have hlen : 4 ≤ nlmsg_len req 0 := by
      rcases pnroute_request_ok a e.pid e.stack req hreq with h | ⟨h1, h2, h3, h4, h5, h6⟩
      · obtain ⟨r, hr, hl, -⟩ := pnroute_request_list a e.pid e.stack h
        rw [hreq] at hr
        cases hr
        omega
      · obtain ⟨r, hr, hl, -⟩ := pnroute_request_change a e.pid e.stack h1 h2 h3 h4 h5 h6
        rw [hreq] at hr
        cases hr
        omega
    have hb2 : b = bytesOf req (nlmsg_len req 0) := by
      simp only [hreq] at hb
      split_ifs at hb <;> simp_all
    rw [hb2, length_bytesOf, nlmsg_len_listMem_bytesOf _ _ hlen]

/-- C1 (amended): in the address tool an add / delete option sets `nlmsg_len` to
`NLMSG_ALIGN (nlmsg_len) + RTA_LENGTH (1)`, the attribute counting with its unpadded length 5:
for every valid address, the request of a command line with one `-a` / `-d` option (among `-l`
and resolvable `-i` options) has `nlmsg_len = 16 + 8 + 5 = 29`, and 29 bytes are handed to
`sendto`; in the route tool too the byte count handed to `sendto` is the `nlmsg_len` of the
request. -/
theorem request_length_sent (w fuel : Nat) (pre post : List Opt) (op : Opt) (v : Nat) (e : Env)
    (hop : op = Opt.a (some v) ∨ op = Opt.d (some v)) (hv : v % 256 % 4 = 0)
    (hpre : ∀ o ∈ pre, o = Opt.l ∨ ∃ k, k ≠ 0 ∧ o = Opt.i k)
    (hpost : ∀ o ∈ post, o = Opt.l ∨ ∃ k, k ≠ 0 ∧ o = Opt.i k)
    (hi : ∃ k, Opt.i k ∈ pre ++ post)
    (he : e.socketOk = true ∧ e.sndbufOk = true ∧ e.rcvbufOk = true ∧ e.bindOk = true) :
    (∃ s, phonet_request (pre ++ op :: post) = .ok s ∧
      nlmsg_len s.nlreq 0 = NLMSG_ALIGN (NLMSG_LENGTH 8) + RTA_LENGTH 1 ∧
      nlmsg_len s.nlreq 0 = 29) ∧
    (∃ b, (phonet_main w fuel (pre ++ op :: post) e).sent = [b] ∧ b.length = 29 ∧
      nlmsg_len (listMem b) 0 = 29) ∧
    (∀ (a : RouteArgs) (e2 : Env), ∀ b ∈ (pnroute_main w fuel a e2).sent,
      b.length = nlmsg_len (listMem b) 0) := by
  obtain ⟨s, hs, hl⟩ := phonet_request_single pre post op v hop hv hpre hpost hi
  obtain ⟨h1, h2, h3, h4⟩ := he
  have hl2 : nlmsg_len (wr32 s.nlreq 8 e.time) 0 = 29 := by
    rw [← hl]
    simp [nlmsg_len, rd32, wr32, rd8_wr8]
  refine ⟨⟨s, hs, hl, hl⟩, ⟨bytesOf (wr32 s.nlreq 8 e.time) 29, ?_, length_bytesOf _ _, ?_⟩,
    fun a e2 => pnroute_sent_length w fuel a e2⟩
  · simp only [phonet_main, hs, h1, h2, h3, h4, hl2]
    cases e.sendOk <;> simp
  · rw [nlmsg_len_listMem_bytesOf _ _ (by omega), hl2]

/-- Witness of `request_length_sent`: `phonet -i DEV -a 04`. -/
theorem request_length_sent_witness :
    (∃ s, phonet_request ([Opt.i 1] ++ Opt.a (some 4) :: []) = .ok s ∧
      nlmsg_len s.nlreq 0 = NLMSG_ALIGN (NLMSG_LENGTH 8) + RTA_LENGTH 1 ∧
      nlmsg_len s.nlreq 0 = 29) ∧
    (∃ b, (phonet_main 64 4 ([Opt.i 1] ++ Opt.a (some 4) :: []) envOk).sent = [b] ∧
      b.length = 29 ∧ nlmsg_len (listMem b) 0 = 29) ∧
    (∀ (a : RouteArgs) (e2 : Env), ∀ b ∈ (pnroute_main 64 4 a e2).sent,
      b.length = nlmsg_len (listMem b) 0) :=
  request_length_sent 64 4 [Opt.i 1] [] (Opt.a (some 4)) 4 envOk (Or.inl rfl) (by decide)
    (by simp) (by simp) ⟨1, by simp⟩ ⟨rfl, rfl, rfl, rfl⟩

/-- C1 (counterexample): for `phonet -a 04 -i DEV` the request handed to `sendto` has 29 bytes
and its `nlmsg_len` field is 29, not 32. -/
theorem request_length_not_aligned :
    (phonet_main 64 4 [Opt.a (some 4), Opt.i 1] envOk).sent.map
        (fun b => (b.length, nlmsg_len (listMem b) 0)) = [(29, 29)] ∧
      (phonet_main 64 4 [Opt.a (some 4), Opt.i 1] envOk).sent.map
        (fun b => (b.length, nlmsg_len (listMem b) 0)) ≠ [(32, 32)] := by
  constructor <;> decide

/-! ## Round trip of the route tool -/

/-- C2 (failing input): for `pnroute add 0x10 DEV` (interface index 1) the request has
`nlmsg_len = 49`, five bytes more than `main` stored. When these bytes of `req` hold
`05 00 01 00 ff`, the attribute loop of `print_route` visits three attributes and decodes the
destination `0xff` instead of `0x10`. -/
theorem route_roundtrip_reads_stale_attribute :
    pnroute_roundtrip ⟨4, "add", 16, 0, 1⟩ 1 staleAttr =
      some { attrs := [(28, 5, RTA_DST), (36, 8, RTA_OIF), (44, 5, RTA_DST)]
             reads := [(28, 2), (30, 2), (32, 1), (36, 2), (38, 2), (40, 4), (44, 2), (46, 2),
               (48, 1)]
             dst := 255
             oifs := [1] } := by
  decide

/-! ## Bounds of print_route -/

/-- C6 (failing input): on a received 32-byte message whose `RTA_OIF` attribute has
`rta_len = 4`, the payload is 4 bytes long (addresses 28..31), yet `print_route` reads the four
bytes at 32..35, which lie behind the message and behind the 32 received bytes. -/
theorem print_route_reads_past_payload :
    RTM_PAYLOAD (recvInto (fun _ => 170) shortOifMsg) 0 = 4 ∧
      route_attrs (recvInto (fun _ => 170) shortOifMsg) 0 =
        some { attrs := [(28, 4, RTA_OIF)]
               reads := [(28, 2), (30, 2), (32, 4)]
               dst := 255
               oifs := [2863311530] } ∧
      print_route (recvInto (fun _ => 170) shortOifMsg) 0 = some [Line.route 255 [2863311530]] := by
  decide

/-! ## Flags of the address tool -/

/-- C7 (failing input): `phonet -a 04 -l -i DEV` is accepted and sends a request of type
`RTM_GETADDR`, a listing, that has `NLM_F_ACK` set (flags `0x305`). -/
theorem phonet_listing_with_ack :
    (phonet_main 64 4 [Opt.a (some 4), Opt.l, Opt.i 1] envOk).sent.map
        (fun b => (nlmsg_type (listMem b) 0, nlmsg_flags (listMem b) 0,
          nlmsg_flags (listMem b) 0 &&& NLM_F_ACK)) =
      [(RTM_GETADDR, 773, NLM_F_ACK)] := by
  decide

/-! ## Bounds of the message walk -/

/-- C10 (failing input): 17 bytes are received, one message with `nlmsg_len = 17`.
`NLMSG_NEXT` subtracts 20 from `ret`; the cast `(size_t)ret` of -3 is huge, so `NLMSG_OK`
accepts the stale header at address 20, which lies outside the 17 received bytes, and the walk
ends the transaction on it. This holds for both tools and for a 32-bit and a 64-bit `size_t`. -/
theorem walk_leaves_received_bytes :
    walk 32 Tool.pnroute (recvInto staleDone oddDatagram) 3 0 17 =
        some { result := .done, visited := [0, 20], decoded := [], printed := [] } ∧
      walk 64 Tool.pnroute (recvInto staleDone oddDatagram) 3 0 17 =
        some { result := .done, visited := [0, 20], decoded := [], printed := [] } ∧
      walk 32 (Tool.phonet true 1) (recvInto staleDone oddDatagram) 3 0 17 =
        some { result := .done, visited := [0, 20], decoded := [], printed := [] } ∧
      walk 64 (Tool.phonet true 1) (recvInto staleDone oddDatagram) 3 0 17 =
        some { result := .done, visited := [0, 20], decoded := [], printed := [] } := by
  decide

/-! ## The attribute loop terminates -/

theorem RTA_ALIGN_ge (n : Nat) (h4 : 4 ≤ n) (h : n < 65536) : 4 ≤ RTA_ALIGN n := by
  unfold RTA_ALIGN
  omega

theorem rd8_lt (m : Mem) (a : Nat) : rd8 m a < 256 := by
  unfold rd8
  omega

theorem rd16_lt (m : Mem) (a : Nat) : rd16 m a < 65536 := by
  have h1 := rd8_lt m a
  have h2 := rd8_lt m (a + 1)
  unfold rd16
  omega

theorem rd32_lt (m : Mem) (a : Nat) : rd32 m a < 4294967296 := by
  have h1 := rd8_lt m a
  have h2 := rd8_lt m (a + 1)
  have h3 := rd8_lt m (a + 2)
  have h4 := rd8_lt m (a + 3)
  unfold rd32
  omega

/-- The attribute loop of `print_route` ends within `len / 4 + 1` tests of its condition. -/
theorem rtaLoop_terminates (m : Mem) (fuel rta : Nat) (len : Int) (dst : Nat)
    (h : len.toNat / 4 < fuel) : (rtaLoop m fuel rta len dst).isSome = true := by
  induction fuel generalizing rta len dst with
  | zero => omega
  | succ fuel ih =>
    unfold rtaLoop
    by_cases h4 : 4 ≤ len
    · by_cases hok : RTA_OK m rta len = true
      · have hlen : 4 ≤ rta_len m rta := by
          simp only [RTA_OK, Bool.and_eq_true, decide_eq_true_eq] at hok
          exact hok.2.1
        have hstep := RTA_ALIGN_ge (rta_len m rta) hlen (rd16_lt m rta)
        have hnext : ∀ d, (rtaLoop m fuel (rta + RTA_ALIGN (rta_len m rta))
            (len - RTA_ALIGN (rta_len m rta)) d).isSome = true := by
          intro d
          apply ih
          omega
        simp only [h4, hok, if_true]
        split_ifs <;> simp [Option.isSome_map, hnext]
      · simp [h4, hok]
    · simp [h4]

theorem route_attrs_isSome (m : Mem) (nlh : Nat) : (route_attrs m nlh).isSome = true :=
  rtaLoop_terminates m _ _ _ _ (Nat.lt_succ_self _)

/-- The data decoder of either tool returns. -/
theorem decode_isSome (t : Tool) (m : Mem) (nlh : Nat) : (t.decode m nlh).isSome = true := by
  cases t with
  | pnroute =>
    simp only [Tool.decode, print_route]
    split_ifs
    · rfl
    · simp [Option.isSome_map, route_attrs_isSome]
  | phonet d i =>
    simp only [Tool.decode]
    split_ifs <;> rfl

/-! ## The negation of the error field -/

theorem toInt32_range (x : Int) : -2147483648 ≤ toInt32 x ∧ toInt32 x < 2147483648 := by
  unfold toInt32
  omega

/-- The `int` negation is the exact negation of every `int` but `INT_MIN`, which it leaves
unchanged. -/
theorem negInt32_toInt32 (x : Int) :
    (toInt32 x ≠ -2147483648 → negInt32 (toInt32 x) = - toInt32 x) ∧
      (toInt32 x = -2147483648 → negInt32 (toInt32 x) = -2147483648) := by
  unfold negInt32 toInt32
  constructor <;> intro h <;> omega

theorem negInt32_error (m : Msg) (h : m.error ≠ -2147483648) : negInt32 m.error = - m.error :=
  (negInt32_toInt32 _).1 h

/-- Where no error field is `INT_MIN`, the outcome with the `int` negation is the outcome of the
specification. -/
theorem int_outcome_eq_spec (msgs : List Msg) (h : ∀ m ∈ msgs, m.error ≠ -2147483648) :
    int_outcome msgs = spec_outcome msgs := by
  unfold int_outcome spec_outcome
  cases hh : (msgs.filter Msg.isTerminator).head? with
  | none => rfl
  | some m =>
    have hm : m ∈ msgs := (List.mem_filter.1 (List.mem_of_mem_head? hh)).1
    simp only [negInt32_error m (h m hm)]

/-! ## Reading a buffer of complete messages -/

theorem recvInto_append (stale : Mem) (pre xs : List Nat) (k : Nat) (h : k < xs.length) :
    recvInto stale (pre ++ xs) (pre.length + k) = xs.getD k 0 := by
  unfold recvInto
  rw [if_pos (by simp; omega), List.getD_append_right _ _ _ _ (by omega)]
  simp

theorem Msg.length_encode (m : Msg) : m.encode.length = m.len + m.pad.length := by
  simp [Msg.encode, Msg.len, le32, le16, NLMSG_LENGTH_eq]
  omega

/-- The header fields and the `error` field that the walk reads from a buffer in which the
message `m` lies behind the bytes `pre`. -/
theorem header_of_encoded (stale : Mem) (pre rest : List Nat) (m : Msg) :
    nlmsg_len (recvInto stale (pre ++ (m.encode ++ rest))) pre.length = m.len % 4294967296 ∧
      nlmsg_type (recvInto stale (pre ++ (m.encode ++ rest))) pre.length = m.type % 65536 ∧
      (4 ≤ m.payload.length →
        rdS32 (recvInto stale (pre ++ (m.encode ++ rest))) (NLMSG_DATA pre.length) = m.error) := by
  have hlen : 16 ≤ (m.encode ++ rest).length := by
    rw [List.length_append, Msg.length_encode]
    simp [Msg.len, NLMSG_LENGTH_eq]
    omega
  refine ⟨?_, ?_, ?_⟩
  · simp only [nlmsg_len, rd32, rd8]
    rw [← Nat.add_zero pre.length, recvInto_append _ _ _ 0 (by omega),
      Nat.add_assoc, recvInto_append _ _ _ (0 + 1) (by omega),
      Nat.add_assoc, recvInto_append _ _ _ (0 + 2) (by omega),
      Nat.add_assoc, recvInto_append _ _ _ (0 + 3) (by omega)]
    simp [Msg.encode, le32]
    omega
  · simp only [nlmsg_type, rd16, rd8]
    rw [recvInto_append _ _ _ 4 (by omega),
      Nat.add_assoc, recvInto_append _ _ _ (4 + 1) (by omega)]
    simp [Msg.encode, le32, le16]
    omega
  · intro hp
    have hlen2 : 20 ≤ (m.encode ++ rest).length := by
      rw [List.length_append, Msg.length_encode]
      simp [Msg.len, NLMSG_LENGTH_eq]
      omega
    simp only [Msg.error, rdS32, rd32, rd8, NLMSG_DATA_eq, listMem]
    rw [recvInto_append _ _ _ 16 (by omega),
      Nat.add_assoc, recvInto_append _ _ _ (16 + 1) (by omega),
      Nat.add_assoc, recvInto_append _ _ _ (16 + 2) (by omega),
      Nat.add_assoc, recvInto_append _ _ _ (16 + 3) (by omega)]
    simp [Msg.encode, le32, le16]
    rw [List.getElem?_append_left (by omega), List.getElem?_append_left (by omega),
      List.getElem?_append_left (by omega), List.getElem?_append_left (by omega)]
    congr 1
    omega

theorem sizeT_natCast (w n : Nat) (hw : 32 ≤ w) (hn : n < 2147483648) : sizeT w (n : Int) = n := by
  have h2 : (2 : Int) ^ 32 ≤ (2 : Int) ^ w := pow_le_pow_right₀ (by norm_num) hw
  unfold sizeT
  rw [Int.emod_eq_of_lt (by omega) (by omega)]
  simp

theorem not_isTerminator (m : Msg) (h1 : m.type ≠ NLMSG_DONE) (h2 : m.type ≠ NLMSG_ERROR) :
    m.isTerminator = false := by
  simp [Msg.isTerminator, h1, h2]

/-- The walk of a buffer made of complete messages, started at the message behind `pre`: it
returns, its result is the specified outcome, it visits the messages up to and including the
first terminator, and hands to the decoder the data messages before the first terminator. -/
theorem walk_encoded (w : Nat) (hw : 32 ≤ w) (t : Tool) (stale : Mem) (msgs : List Msg) :
    ∀ (pre : List Nat) (fuel : Nat), (∀ m ∈ msgs, m.Complete) →
      pre.length + (encodeAll msgs).length < 2147483648 → msgs.length < fuel →
      ∃ o, walk w t (recvInto stale (pre ++ encodeAll msgs)) fuel pre.length
          (encodeAll msgs).length = some o ∧
        o.result = int_outcome msgs ∧
        o.visited = offsets pre.length (msgs.take (msgs.findIdx Msg.isTerminator + 1)) ∧
        o.decoded = dataOffsets t pre.length (msgs.takeWhile (fun m => !m.isTerminator)) := by
  induction msgs with
  | nil =>
    intro pre fuel _ _ hfuel
    obtain ⟨fuel, rfl⟩ : ∃ k, fuel = k + 1 := ⟨fuel - 1, by simp at hfuel; omega⟩
    refine ⟨{ result := .more, visited := [], decoded := [], printed := [] }, ?_, rfl, rfl, rfl⟩
    simp [walk, encodeAll, NLMSG_OK, sizeT]
  | cons m ms ih =>
    intro pre fuel hc hn hfuel
    obtain ⟨fuel, rfl⟩ : ∃ k, fuel = k + 1 := ⟨fuel - 1, by simp at hfuel; omega⟩
    have hcm := hc m (List.mem_cons_self _ _)
    obtain ⟨hty, hpad, herr⟩ := hcm
    have henc := Msg.length_encode m
    obtain ⟨hl, ht, he⟩ := header_of_encoded stale pre (encodeAll ms) m
    simp only [encodeAll, List.length_append] at hn ⊢
    have hlen16 : 16 ≤ m.len := by
      simp [Msg.len, NLMSG_LENGTH_eq]
    rw [Nat.mod_eq_of_lt (by omega)] at hl
    rw [Nat.mod_eq_of_lt hty] at ht
    have hok : NLMSG_OK (recvInto stale (pre ++ (m.encode ++ encodeAll ms))) pre.length
        (sizeT w ((m.encode.length + (encodeAll ms).length : Nat) : Int)) = true := by
      rw [sizeT_natCast w _ hw (by omega)]
      simp only [NLMSG_OK, hl, Bool.and_eq_true, decide_eq_true_eq]
      omega
    unfold walk
    rw [if_pos hok, ht]
    by_cases hdone : m.type = NLMSG_DONE
    · refine ⟨_, by rw [if_pos hdone], ?_, ?_, ?_⟩
      · simp [int_outcome, Msg.isTerminator, hdone]
      · simp [Msg.isTerminator, hdone, List.findIdx_cons, offsets]
      · simp [Msg.isTerminator, hdone, dataOffsets]
    rw [if_neg hdone]
    by_cases herror : m.type = NLMSG_ERROR
    · rw [if_pos herror, he (herr herror)]
      by_cases hzero : m.error = 0
      · refine ⟨_, by rw [if_neg (by simpa using hzero)], ?_, ?_, ?_⟩
        · simp [int_outcome, Msg.isTerminator, herror, hzero, NLMSG_DONE, NLMSG_ERROR]
        · simp [Msg.isTerminator, herror, List.findIdx_cons, offsets]
        · simp [Msg.isTerminator, herror, dataOffsets]
      · refine ⟨_, by rw [if_pos hzero], ?_, ?_, ?_⟩
        · simp [int_outcome, Msg.isTerminator, herror, hzero, NLMSG_DONE, NLMSG_ERROR]
        · simp [Msg.isTerminator, herror, List.findIdx_cons, offsets]
        · simp [Msg.isTerminator, herror, dataOffsets]
    rw [if_neg herror, hl]
    have hnt := not_isTerminator m hdone herror
    obtain ⟨o, ho, hres, hvis, hdec⟩ := ih (pre ++ m.encode) fuel
      (fun x hx => hc x (List.mem_cons_of_mem _ hx))
      (by rw [List.length_append]; omega) (by simpa using hfuel)
    have hnext : walk w t (recvInto stale (pre ++ (m.encode ++ encodeAll ms))) fuel
        (pre.length + NLMSG_ALIGN m.len)
        (((m.encode.length + (encodeAll ms).length : Nat) : Int) - (NLMSG_ALIGN m.len : Nat)) =
        some o := by
      rw [← ho, List.append_assoc, List.length_append, henc, hpad]
      congr 1
      push_cast
      omega
    rw [hnext]
    have hres2 : int_outcome (m :: ms) = int_outcome ms := by
      simp [int_outcome, hnt]
    have hvis2 : offsets pre.length ((m :: ms).take ((m :: ms).findIdx Msg.isTerminator + 1)) =
        pre.length :: o.visited := by
      rw [hvis, List.length_append]
      simp [List.findIdx_cons, hnt, offsets]
    by_cases hdata : t.isData m.type = true
    · obtain ⟨lines, hlines⟩ := Option.isSome_iff_exists.1
        (decode_isSome t (recvInto stale (pre ++ (m.encode ++ encodeAll ms))) pre.length)
      refine ⟨WalkOut.after pre.length true lines o, ?_, ?_, ?_, ?_⟩
      · rw [if_pos hdata, hlines]
        rfl
      · rw [hres2, ← hres]
        rfl
      · rw [hvis2]
        rfl
      · rw [List.takeWhile_cons]
        simp only [hnt, Bool.not_false, if_true, dataOffsets, hdata]
        rw [← List.length_append, ← hdec]
        rfl
    · refine ⟨WalkOut.after pre.length false [] o, ?_, ?_, ?_, ?_⟩
      · rw [if_neg hdata]
        rfl
      · rw [hres2, ← hres]
        rfl
      · rw [hvis2]
        rfl
      · rw [List.takeWhile_cons]
        simp only [hnt, Bool.not_false, if_true, dataOffsets, hdata]
        rw [← List.length_append, ← hdec]
        simp [WalkOut.after]

theorem length_encodeAll_pos (m : Msg) (ms : List Msg) : 0 < (encodeAll (m :: ms)).length := by
  simp [encodeAll, Msg.length_encode, Msg.len, NLMSG_LENGTH_eq]

/-- The walk of a whole receive buffer made of complete messages. -/
theorem walk_buffer (w : Nat) (hw : 32 ≤ w) (t : Tool) (stale : Mem) (msgs : List Msg)
    (fuel : Nat) (hc : ∀ m ∈ msgs, m.Complete) (hn : (encodeAll msgs).length < 2147483648)
    (hfuel : msgs.length < fuel) :
    ∃ o, walk w t (recvInto stale (encodeAll msgs)) fuel 0 (encodeAll msgs).length = some o ∧
      o.result = int_outcome msgs ∧
      o.visited = offsets 0 (msgs.take (msgs.findIdx Msg.isTerminator + 1)) ∧
      o.decoded = dataOffsets t 0 (msgs.takeWhile (fun m => !m.isTerminator)) := by
  simpa using walk_encoded w hw t stale msgs [] fuel hc (by simpa using hn) hfuel

/-- The receive loop on a datagram made of complete messages. -/
theorem recvLoop_buffer (w : Nat) (hw : 32 ≤ w) (t : Tool) (stale : Mem) (msgs : List Msg)
    (fuel : Nat) (rest : List Recv) (hc : ∀ m ∈ msgs, m.Complete)
    (hn : (encodeAll msgs).length < 2147483648) (hfuel : msgs.length < fuel) (hne : msgs ≠ []) :
    (recvLoop w t fuel stale (Recv.dgram (encodeAll msgs) false :: rest)).1 =
      match (int_outcome msgs).exitStatus with
      | some code => Status.exited code
      | none => (recvLoop w t fuel (recvInto stale (encodeAll msgs)) rest).1 := by
  obtain ⟨o, ho, hres, -, -⟩ := walk_buffer w hw t stale msgs fuel hc hn hfuel
  have hpos : (encodeAll msgs).length ≠ 0 := by
    cases msgs with
    | nil => exact absurd rfl hne
    | cons m ms => exact Nat.pos_iff_ne_zero.1 (length_encodeAll_pos m ms)
  rw [← hres]
  simp only [recvLoop, hpos, if_false, Bool.false_eq_true, ho]
  cases o.result <;> rfl

/-- C3 (amended): on a receive buffer made of complete, 4-byte-aligned messages the walk of
either tool returns, and how it ends is decided by the first `NLMSG_DONE` / `NLMSG_ERROR`
message: `Done` (exit status 0) on `NLMSG_DONE` or on an `NLMSG_ERROR` with `error = 0`, `Failed`
(exit status 1) on an `NLMSG_ERROR` with another `error`, with `errno` set to `-error` taken in
`int`, and without such a message the walk gives control back to the receive loop. Buffers with
the same `NLMSG_DONE` / `NLMSG_ERROR` messages end alike, whatever other messages they hold.
`errno` is the negation of the error field for every error field but `INT_MIN`, where it is
`INT_MIN`; so the walk ends as the specification says when no error field is `INT_MIN`. -/
theorem walk_first_terminator (w : Nat) (hw : 32 ≤ w) (t : Tool) (stale : Mem)
    (msgs : List Msg) (fuel : Nat) (rest : List Recv) (hc : ∀ m ∈ msgs, m.Complete)
    (hn : (encodeAll msgs).length < 2147483648) (hfuel : msgs.length < fuel) :
    (walk w t (recvInto stale (encodeAll msgs)) fuel 0 (encodeAll msgs).length).map
        WalkOut.result = some (int_outcome msgs) ∧
      (msgs ≠ [] →
        (recvLoop w t fuel stale (Recv.dgram (encodeAll msgs) false :: rest)).1 =
          match (int_outcome msgs).exitStatus with
          | some code => Status.exited code
          | none => (recvLoop w t fuel (recvInto stale (encodeAll msgs)) rest).1) ∧
      (∀ (msgs2 : List Msg) (stale2 : Mem) (fuel2 : Nat), (∀ m ∈ msgs2, m.Complete) →
        (encodeAll msgs2).length < 2147483648 → msgs2.length < fuel2 →
        msgs2.filter Msg.isTerminator = msgs.filter Msg.isTerminator →
        (walk w t (recvInto stale2 (encodeAll msgs2)) fuel2 0 (encodeAll msgs2).length).map
            WalkOut.result =
          (walk w t (recvInto stale (encodeAll msgs)) fuel 0 (encodeAll msgs).length).map
            WalkOut.result) ∧
      (∀ m ∈ msgs, (m.error ≠ -2147483648 → negInt32 m.error = - m.error) ∧
        (m.error = -2147483648 → negInt32 m.error = -2147483648)) ∧
      ((∀ m ∈ msgs, m.error ≠ -2147483648) →
        (walk w t (recvInto stale (encodeAll msgs)) fuel 0 (encodeAll msgs).length).map
          WalkOut.result = some (spec_outcome msgs)) := by
  obtain ⟨o, ho, hres, -, -⟩ := walk_buffer w hw t stale msgs fuel hc hn hfuel
  refine ⟨by rw [ho, ← hres]; rfl, recvLoop_buffer w hw t stale msgs fuel rest hc hn hfuel, ?_,
    fun m _ => negInt32_toInt32 _, ?_⟩
  · intro msgs2 stale2 fuel2 hc2 hn2 hfuel2 hsame
    obtain ⟨o2, ho2, hres2, -, -⟩ := walk_buffer w hw t stale2 msgs2 fuel2 hc2 hn2 hfuel2
    rw [ho, ho2]
    simp only [Option.map_some', hres, hres2, int_outcome, hsame]
  · intro hmin
    rw [ho, ← int_outcome_eq_spec msgs hmin, ← hres]
    rfl

/-- Witness of `walk_first_terminator`: a route message followed by an ACK with status -17. -/
theorem walk_first_terminator_witness :
    (32 ≤ 64 ∧ (∀ m ∈ [routeMsg, ackMsg 4294967279], m.Complete) ∧
      (encodeAll [routeMsg, ackMsg 4294967279]).length < 2147483648 ∧
      [routeMsg, ackMsg 4294967279].length < 3) ∧
    (walk 64 Tool.pnroute (recvInto zeroMem (encodeAll [routeMsg, ackMsg 4294967279])) 3 0
        (encodeAll [routeMsg, ackMsg 4294967279]).length).map WalkOut.result =
      some (int_outcome [routeMsg, ackMsg 4294967279]) :=
  ⟨⟨by decide, by decide, by decide, by decide⟩,
    (walk_first_terminator 64 (by decide) Tool.pnroute zeroMem [routeMsg, ackMsg 4294967279] 3 []
      (by decide) (by decide) (by decide)).1⟩

/-- C3 (counterexample): the buffer holds one ACK whose error field is `INT_MIN`; both tools end
in `Failed` with `errno = INT_MIN`, which is not the negation `2 ^ 31` of the error field that
the specification names. -/
theorem walk_errno_int_min :
    (ackMsg 2147483648).error = -2147483648 ∧
      spec_outcome [ackMsg 2147483648] = WalkResult.failed 2147483648 ∧
      (walk 64 Tool.pnroute (recvInto zeroMem (encodeAll [ackMsg 2147483648])) 2 0
          (encodeAll [ackMsg 2147483648]).length).map WalkOut.result =
        some (WalkResult.failed (-2147483648)) ∧
      (walk 32 (Tool.phonet true 1) (recvInto zeroMem (encodeAll [ackMsg 2147483648])) 2 0
          (encodeAll [ackMsg 2147483648]).length).map WalkOut.result =
        some (WalkResult.failed (-2147483648)) := by
  decide

/-! ## Which messages the walk examines and decodes -/

theorem int_outcome_first_error (pre post : List Msg) (ack : Msg)
    (hpre : ∀ m ∈ pre, m.isTerminator = false) (hack : ack.type = NLMSG_ERROR)
    (he : ack.error ≠ 0) :
    int_outcome (pre ++ ack :: post) = .failed (negInt32 ack.error) := by
  have h1 : pre.filter Msg.isTerminator = [] := by
    simpa [List.filter_eq_nil_iff] using hpre
  have h2 : ack.isTerminator = true := by
    simp [Msg.isTerminator, hack]
  simp [int_outcome, List.filter_append, h1, List.filter_cons, h2, hack, he, NLMSG_ERROR,
    NLMSG_DONE]

theorem takeWhile_before_terminator (pre post : List Msg) (x : Msg)
    (hpre : ∀ m ∈ pre, m.isTerminator = false) (hx : x.isTerminator = true) :
    (pre ++ x :: post).takeWhile (fun m => !m.isTerminator) = pre := by
  induction pre with
  | nil => simp [List.takeWhile_cons, hx]
  | cons p ps ih =>
    have hp := hpre p (List.mem_cons_self _ _)
    simp only [List.cons_append, List.takeWhile_cons, hp, Bool.not_false, if_true]
    rw [ih (fun m hm => hpre m (List.mem_cons_of_mem _ hm))]

theorem take_all_of_no_terminator (msgs : List Msg) (h : ∀ m ∈ msgs, m.isTerminator = false) :
    msgs.take (msgs.findIdx Msg.isTerminator + 1) = msgs := by
  induction msgs with
  | nil => rfl
  | cons p ps ih =>
    have hp := h p (List.mem_cons_self _ _)
    simp only [List.findIdx_cons, hp, cond_false, List.take_succ_cons]
    rw [ih (fun m hm => h m (List.mem_cons_of_mem _ hm))]

/-- Every data message of a buffer starts inside the buffer. -/
theorem dataOffsets_lt (t : Tool) (msgs : List Msg) (off x : Nat)
    (hx : x ∈ dataOffsets t off msgs) : x < off + (encodeAll msgs).length := by
  induction msgs generalizing off with
  | nil => simp [dataOffsets] at hx
  | cons m ms ih =>
    have hpos : 0 < m.encode.length := by
      simp [Msg.length_encode, Msg.len, NLMSG_LENGTH_eq]
    simp only [encodeAll, List.length_append]
    simp only [dataOffsets] at hx
    split_ifs at hx
    · rcases List.mem_cons.1 hx with rfl | hx
      · omega
      · have := ih _ hx
        omega
    · have := ih _ hx
      omega

/-- C4 (amended): on a receive buffer made of complete messages the walk of either tool
examines the messages in order up to and including the first `NLMSG_DONE` / `NLMSG_ERROR`
message and none behind it; it examines every message if the buffer holds no such message. In
particular, for an ACK with status 0 immediately followed by `NLMSG_DONE` the
transaction ends in `Done` after the ACK alone was examined. -/
theorem walk_visits_up_to_terminator (w : Nat) (hw : 32 ≤ w) (t : Tool) (stale : Mem)
    (msgs : List Msg) (fuel : Nat) (hc : ∀ m ∈ msgs, m.Complete)
    (hn : (encodeAll msgs).length < 2147483648) (hfuel : msgs.length < fuel) :
    ∃ o, walk w t (recvInto stale (encodeAll msgs)) fuel 0 (encodeAll msgs).length = some o ∧
      o.visited = offsets 0 (msgs.take (msgs.findIdx Msg.isTerminator + 1)) ∧
      ((∀ m ∈ msgs, m.isTerminator = false) → o.visited = offsets 0 msgs) ∧
      (∀ ack done, msgs = [ack, done] → ack.type = NLMSG_ERROR → ack.error = 0 →
        done.type = NLMSG_DONE → o.result = .done ∧ o.visited = [0]) := by
  obtain ⟨o, ho, hres, hvis, -⟩ := walk_buffer w hw t stale msgs fuel hc hn hfuel
  refine ⟨o, ho, hvis, ?_, ?_⟩
  · intro hno
    rw [hvis, take_all_of_no_terminator msgs hno]
  · rintro ack done rfl hack hzero -
    have hterm : ack.isTerminator = true := by
      simp [Msg.isTerminator, hack]
    constructor
    · rw [hres]
      simp [int_outcome, hterm, hack, hzero, NLMSG_DONE, NLMSG_ERROR]
    · rw [hvis]
      simp [List.findIdx_cons, hterm, offsets]

/-- Witness of `walk_visits_up_to_terminator`: an ACK with status 0 followed by a done
marker. -/
theorem walk_visits_up_to_terminator_witness :
    (32 ≤ 64 ∧ (∀ m ∈ [ackMsg 0, doneMsg], m.Complete) ∧
      (encodeAll [ackMsg 0, doneMsg]).length < 2147483648 ∧ [ackMsg 0, doneMsg].length < 3) ∧
    ∃ o, walk 64 (Tool.phonet true 1) (recvInto zeroMem (encodeAll [ackMsg 0, doneMsg])) 3 0
        (encodeAll [ackMsg 0, doneMsg]).length = some o ∧
      o.visited = offsets 0 ([ackMsg 0, doneMsg].take
        ([ackMsg 0, doneMsg].findIdx Msg.isTerminator + 1)) ∧
      ((∀ m ∈ [ackMsg 0, doneMsg], m.isTerminator = false) →
        o.visited = offsets 0 [ackMsg 0, doneMsg]) ∧
      (∀ ack done, [ackMsg 0, doneMsg] = [ack, done] → ack.type = NLMSG_ERROR →
        ack.error = 0 → done.type = NLMSG_DONE → o.result = .done ∧ o.visited = [0]) :=
  ⟨⟨by decide, by decide, by decide, by decide⟩,
    walk_visits_up_to_terminator 64 (by decide) (Tool.phonet true 1) zeroMem [ackMsg 0, doneMsg] 3
      (by decide) (by decide) (by decide)⟩

/-- C4 (counterexample): the buffer holds an ACK with status 0 at address 0 and a done marker
at address 36; both tools end in `Done` having examined the ACK only. -/
theorem walk_skips_message_after_ack :
    offsets 0 [ackMsg 0, doneMsg] = [0, 36] ∧
      walk 64 Tool.pnroute (recvInto zeroMem (encodeAll [ackMsg 0, doneMsg])) 3 0
          (encodeAll [ackMsg 0, doneMsg]).length =
        some { result := .done, visited := [0], decoded := [], printed := [] } ∧
      walk 64 (Tool.phonet true 1) (recvInto zeroMem (encodeAll [ackMsg 0, doneMsg])) 3 0
          (encodeAll [ackMsg 0, doneMsg]).length =
        some { result := .done, visited := [0], decoded := [], printed := [] } := by
  decide

/-- C5 (amended): on a receive buffer made of complete messages whose first `NLMSG_DONE` /
`NLMSG_ERROR` message is an ACK with a status `e` other than 0, the dispatcher of either tool
ends in `Failed` with exit status 1 and `errno` set to `-e` taken in `int`, which is `-e` unless
`e` is `INT_MIN`; the data decoder is invoked on exactly the data messages in front of that ACK,
and on no message at or behind it. -/
theorem walk_failed_after_data (w : Nat) (hw : 32 ≤ w) (t : Tool) (stale : Mem)
    (pre post : List Msg) (ack : Msg) (fuel : Nat) (rest : List Recv)
    (hc : ∀ m ∈ pre ++ ack :: post, m.Complete)
    (hn : (encodeAll (pre ++ ack :: post)).length < 2147483648)
    (hfuel : (pre ++ ack :: post).length < fuel)
    (hpre : ∀ m ∈ pre, m.isTerminator = false) (hack : ack.type = NLMSG_ERROR)
    (he : ack.error ≠ 0) :
    ∃ o, walk w t (recvInto stale (encodeAll (pre ++ ack :: post))) fuel 0
        (encodeAll (pre ++ ack :: post)).length = some o ∧
      o.result = .failed (negInt32 ack.error) ∧
      (ack.error ≠ -2147483648 → o.result = .failed (- ack.error)) ∧
      o.decoded = dataOffsets t 0 pre ∧
      (∀ x ∈ o.decoded, x < (encodeAll pre).length) ∧
      (recvLoop w t fuel stale (Recv.dgram (encodeAll (pre ++ ack :: post)) false :: rest)).1 =
        Status.exited 1 := by
  obtain ⟨o, ho, hres, -, hdec⟩ := walk_buffer w hw t stale _ fuel hc hn hfuel
  have hterm : ack.isTerminator = true := by
    simp [Msg.isTerminator, hack]
  rw [int_outcome_first_error pre post ack hpre hack he] at hres
  rw [takeWhile_before_terminator pre post ack hpre hterm] at hdec
  refine ⟨o, ho, hres, ?_, hdec, ?_, ?_⟩
  · intro hmin
    rw [hres, negInt32_error ack hmin]
  · intro x hx
    rw [hdec] at hx
    simpa using dataOffsets_lt t pre 0 x hx
  · rw [recvLoop_buffer w hw t stale _ fuel rest hc hn hfuel (by simp),
      int_outcome_first_error pre post ack hpre hack he]
    rfl

/-- Witness of `walk_failed_after_data`: a route message followed by an ACK with status -17. -/
theorem walk_failed_after_data_witness :
    (32 ≤ 64 ∧ (∀ m ∈ [routeMsg] ++ ackMsg 4294967279 :: [], m.Complete) ∧
      (encodeAll ([routeMsg] ++ ackMsg 4294967279 :: [])).length < 2147483648 ∧
      ([routeMsg] ++ ackMsg 4294967279 :: []).length < 3 ∧
      (∀ m ∈ [routeMsg], m.isTerminator = false) ∧ (ackMsg 4294967279).type = NLMSG_ERROR ∧
      (ackMsg 4294967279).error ≠ 0) ∧
    ∃ o, walk 64 Tool.pnroute
        (recvInto zeroMem (encodeAll ([routeMsg] ++ ackMsg 4294967279 :: []))) 3 0
        (encodeAll ([routeMsg] ++ ackMsg 4294967279 :: [])).length = some o ∧
      o.result = .failed (negInt32 (ackMsg 4294967279).error) ∧
      ((ackMsg 4294967279).error ≠ -2147483648 →
        o.result = .failed (- (ackMsg 4294967279).error)) ∧
      o.decoded = dataOffsets Tool.pnroute 0 [routeMsg] ∧
      (∀ x ∈ o.decoded, x < (encodeAll [routeMsg]).length) ∧
      (recvLoop 64 Tool.pnroute 3 zeroMem
        (Recv.dgram (encodeAll ([routeMsg] ++ ackMsg 4294967279 :: [])) false :: [])).1 =
        Status.exited 1 :=
  ⟨⟨by decide, by decide, by decide, by decide, by decide, by decide, by decide⟩,
    walk_failed_after_data 64 (by decide) Tool.pnroute zeroMem [routeMsg] [] (ackMsg 4294967279) 3
      [] (by decide) (by decide) (by decide) (by decide) (by decide) (by decide)⟩

/-- C5 (counterexample): the buffer holds a route message and then an ACK with status -17;
the route tool ends in `Failed` with `errno = 17`, but it has invoked `print_route` on the
message at address 0, which printed its line. -/
theorem walk_decodes_before_error :
    walk 64 Tool.pnroute (recvInto zeroMem (encodeAll [routeMsg, ackMsg 4294967279])) 3 0
        (encodeAll [routeMsg, ackMsg 4294967279]).length =
      some { result := .failed 17, visited := [0, 44], decoded := [0],
             printed := [Line.route 16 [1]] } := by
  decide

/-! ## The receive loop as a run over receive outcomes -/

/-- The calls of `recvmsg` that returned consumed a beginning of the outcomes. -/
theorem recvLoop_consumes (w : Nat) (t : Tool) (fuel : Nat) (buf : Mem) (rs : List Recv) :
    ∃ rest, rs = (recvLoop w t fuel buf rs).2.map StepRec.outcome ++ rest := by
  induction rs generalizing buf with
  | nil => exact ⟨[], by simp [recvLoop]⟩
  | cons r rs ih =>
    cases r with
    | fail errno =>
      by_cases he : errno = EINTR
      · obtain ⟨rest, h⟩ := ih buf
        exact ⟨rest, by simp only [recvLoop, he, if_true, List.map_cons, List.cons_append, ← h]⟩
      · exact ⟨rs, by simp [recvLoop, he]⟩
    | dgram bytes trunc =>
      simp only [recvLoop]
      split_ifs
      · exact ⟨rs, by simp⟩
      · exact ⟨rs, by simp⟩
      · split
        · exact ⟨rs, by simp⟩
        · split
          · exact ⟨rs, by simp⟩
          · exact ⟨rs, by simp⟩
          · obtain ⟨rest, h⟩ := ih (recvInto buf bytes)
            exact ⟨rest, by simp only [List.map_cons, List.cons_append, ← h]⟩

/-- C9: in a run of the receive loop of either tool over the outcomes `rs` of `recvmsg`, the
calls that returned consume a beginning of `rs`, and for each of them (`s`, with the calls
`tail` behind it): `recvmsg` is invoked again behind it only if it failed with `EINTR` or
delivered a buffer whose walk met no terminator; if its walk met a terminator (`NLMSG_DONE`, or
`NLMSG_ERROR` with any status) no call follows and the tool has exited, with status 0 or 1 as
the walk ended; a truncated datagram or a failure other than `EINTR` is followed by no call,
the tool has exited with status 1 and no message of the datagram was walked. The walk recorded
for a buffer is the walk of its bytes stored over the earlier content of the buffer. -/
theorem recvLoop_run (w : Nat) (t : Tool) (fuel : Nat) (buf : Mem) (rs : List Recv)
    (init tail : List StepRec) (s : StepRec)
    (h : (recvLoop w t fuel buf rs).2 = init ++ s :: tail) :
    (∃ rest, rs = (init ++ s :: tail).map StepRec.outcome ++ rest) ∧
      ((tail ≠ [] ∨ (recvLoop w t fuel buf rs).1 = Status.blocked) →
        s.outcome.kind = RecvKind.eintr ∨
          (s.outcome.kind = RecvKind.buffer ∧ ∃ o, s.walked = some o ∧ o.result = .more)) ∧
      (∀ o code, s.walked = some o → o.result.exitStatus = some code →
        tail = [] ∧ (recvLoop w t fuel buf rs).1 = Status.exited code) ∧
      ((s.outcome.kind = RecvKind.truncated ∨ s.outcome.kind = RecvKind.failure) →
        tail = [] ∧ (recvLoop w t fuel buf rs).1 = Status.exited 1 ∧ s.walked = none) ∧
      (∀ bytes, s.outcome = Recv.dgram bytes false → bytes ≠ [] →
        ∃ old, s.walked = walk w t (recvInto old bytes) fuel 0 bytes.length) := by
  refine ⟨by rw [← h]; exact recvLoop_consumes w t fuel buf rs, ?_⟩
  induction rs generalizing buf init with
  | nil => simp [recvLoop] at h
  | cons r rs ih =>
    cases r with
    | fail errno =>
      by_cases he : errno = EINTR
      · simp only [recvLoop, he, if_true] at h ⊢
        rcases List.cons_eq_append_iff.1 h with ⟨rfl, h2⟩ | ⟨init1, rfl, h2⟩
        · cases h2
          refine ⟨?_, ?_, ?_, ?_⟩
          · intro _
            exact Or.inl (by simp [Recv.kind])
          · intro o code ho
            cases ho
          · simp [Recv.kind]
          · intro bytes hb
            cases hb
        · exact ih buf init1 h2
      · simp only [recvLoop, he, if_false] at h ⊢
        rcases List.cons_eq_append_iff.1 h with ⟨rfl, h2⟩ | ⟨init1, rfl, h2⟩
        · cases h2
          refine ⟨?_, ?_, ?_, ?_⟩
          · simp
          · intro o code ho
            cases ho
          · simp
          · intro bytes hb
            cases hb
        · simp at h2
    | dgram bytes trunc =>
      by_cases hz : bytes.length = 0
      · simp only [recvLoop, hz, if_true] at h ⊢
        rcases List.cons_eq_append_iff.1 h with ⟨rfl, h2⟩ | ⟨init1, rfl, h2⟩
        · cases h2
          refine ⟨?_, ?_, ?_, ?_⟩
          · simp
          · intro o code ho
            cases ho
          · simp [Recv.kind, hz]
          · intro b hb hne
            cases hb
            exact absurd (List.length_eq_zero.1 hz) hne
        · simp at h2
      by_cases htr : trunc = true
      · simp only [recvLoop, hz, htr, if_true, if_false] at h ⊢
        rcases List.cons_eq_append_iff.1 h with ⟨rfl, h2⟩ | ⟨init1, rfl, h2⟩
        · cases h2
          refine ⟨?_, ?_, ?_, ?_⟩
          · simp
          · intro o code ho
            cases ho
          · simp
          · intro b hb
            cases hb
        · simp at h2
      have htr2 : trunc = false := by simpa using htr
      subst htr2
      cases hwalk : walk w t (recvInto buf bytes) fuel 0 bytes.length with
      | none =>
        simp only [recvLoop, hz, if_false, Bool.false_eq_true, hwalk] at h ⊢
        rcases List.cons_eq_append_iff.1 h with ⟨rfl, h2⟩ | ⟨init1, rfl, h2⟩
        · cases h2
          refine ⟨?_, ?_, ?_, ?_⟩
          · simp
          · intro o code ho
            cases ho
          · simp [Recv.kind, hz]
          · intro b hb _
            cases hb
            exact ⟨buf, hwalk.symm⟩
        · simp at h2
      | some o =>
        cases hres : o.result with
        | done =>
          simp only [recvLoop, hz, if_false, Bool.false_eq_true, hwalk, hres] at h ⊢
          rcases List.cons_eq_append_iff.1 h with ⟨rfl, h2⟩ | ⟨init1, rfl, h2⟩
          · cases h2
            refine ⟨?_, ?_, ?_, ?_⟩
            · simp
            · intro o2 code ho hc
              cases ho
              rw [hres] at hc
              cases hc
              exact ⟨rfl, rfl⟩
            · simp [Recv.kind, hz]
            · intro b hb _
              cases hb
              exact ⟨buf, hwalk.symm⟩
          · simp at h2
        | failed errno =>
          simp only [recvLoop, hz, if_false, Bool.false_eq_true, hwalk, hres] at h ⊢
          rcases List.cons_eq_append_iff.1 h with ⟨rfl, h2⟩ | ⟨init1, rfl, h2⟩
          · cases h2
            refine ⟨?_, ?_, ?_, ?_⟩
            · simp
            · intro o2 code ho hc
              cases ho
              rw [hres] at hc
              cases hc
              exact ⟨rfl, rfl⟩
            · simp [Recv.kind, hz]
            · intro b hb _
              cases hb
              exact ⟨buf, hwalk.symm⟩
          · simp at h2
        | more =>
          simp only [recvLoop, hz, if_false, Bool.false_eq_true, hwalk, hres] at h ⊢
          rcases List.cons_eq_append_iff.1 h with ⟨rfl, h2⟩ | ⟨init1, rfl, h2⟩
          · cases h2
            refine ⟨?_, ?_, ?_, ?_⟩
            · intro _
              exact Or.inr ⟨by simp [Recv.kind, hz], o, rfl, hres⟩
            · intro o2 code ho hc
              cases ho
              rw [hres] at hc
              cases hc
            · simp [Recv.kind, hz]
            · intro b hb _
              cases hb
              exact ⟨buf, hwalk.symm⟩
          · exact ih (recvInto buf bytes) init1 h2

/-- Witness of `recvLoop_run`: `recvmsg` fails with `EINTR`, then delivers a done marker; the
third outcome is never consumed. -/
theorem recvLoop_run_witness :
    (recvLoop 64 Tool.pnroute 3 zeroMem
        [Recv.fail 4, Recv.dgram (encodeAll [doneMsg]) false, Recv.fail 5]).2 =
      [⟨Recv.fail 4, none⟩] ++
        ⟨Recv.dgram (encodeAll [doneMsg]) false,
          some { result := .done, visited := [0], decoded := [], printed := [] }⟩ :: [] ∧
    (recvLoop 64 Tool.pnroute 3 zeroMem
        [Recv.fail 4, Recv.dgram (encodeAll [doneMsg]) false, Recv.fail 5]).1 =
      Status.exited 0 :=
  ⟨by decide,
    ((recvLoop_run 64 Tool.pnroute 3 zeroMem
      [Recv.fail 4, Recv.dgram (encodeAll [doneMsg]) false, Recv.fail 5] [⟨Recv.fail 4, none⟩] []
      ⟨Recv.dgram (encodeAll [doneMsg]) false,
        some { result := .done, visited := [0], decoded := [], printed := [] }⟩
      (by decide)).2.2.1 _ 0 rfl rfl).2⟩

/-! ## Exit statuses -/

/-- How the receive loop can exit: with status 1 behind a failing call, with status 0 behind a
successful one, and with no other status. -/
theorem recvLoop_exit (w : Nat) (t : Tool) (fuel : Nat) (buf : Mem) (rs : List Recv)
    (code : Nat) (h : (recvLoop w t fuel buf rs).1 = Status.exited code) :
    ∃ s ∈ (recvLoop w t fuel buf rs).2,
      (code = 1 ∧ s.isFailure) ∨ (code = 0 ∧ s.isSuccess) := by
  induction rs generalizing buf with
  | nil => simp [recvLoop] at h
  | cons r rs ih =>
    cases r with
    | fail errno =>
      by_cases he : errno = EINTR
      · simp only [recvLoop, he, if_true] at h ⊢
        obtain ⟨s, hs, hc⟩ := ih buf h
        exact ⟨s, List.mem_cons_of_mem _ hs, hc⟩
      · simp only [recvLoop, he, if_false, Status.exited.injEq] at h ⊢
        exact ⟨_, List.mem_singleton.2 rfl, Or.inl ⟨h.symm, Or.inl (by simp [Recv.kind, he])⟩⟩
    | dgram bytes trunc =>
      by_cases hz : bytes.length = 0
      · simp only [recvLoop, hz, if_true, Status.exited.injEq] at h ⊢
        exact ⟨_, List.mem_singleton.2 rfl, Or.inr ⟨h.symm, Or.inl (by simp [Recv.kind, hz])⟩⟩
      by_cases htr : trunc = true
      · simp only [recvLoop, hz, htr, if_true, if_false, Status.exited.injEq] at h ⊢
        exact ⟨_, List.mem_singleton.2 rfl,
          Or.inl ⟨h.symm, Or.inr (Or.inl (by simp [Recv.kind, hz]))⟩⟩
      have htr2 : trunc = false := by simpa using htr
      subst htr2
      cases hwalk : walk w t (recvInto buf bytes) fuel 0 bytes.length with
      | none => simp [recvLoop, hz, hwalk] at h
      | some o =>
        cases hres : o.result with
        | done =>
          simp only [recvLoop, hz, if_false, Bool.false_eq_true, hwalk, hres,
            Status.exited.injEq] at h ⊢
          exact ⟨_, List.mem_singleton.2 rfl, Or.inr ⟨h.symm, Or.inr ⟨o, rfl, hres⟩⟩⟩
        | failed errno =>
          simp only [recvLoop, hz, if_false, Bool.false_eq_true, hwalk, hres,
            Status.exited.injEq] at h ⊢
          exact ⟨_, List.mem_singleton.2 rfl,
            Or.inl ⟨h.symm, Or.inr (Or.inr ⟨o, errno, rfl, hres⟩)⟩⟩
        | more =>
          simp only [recvLoop, hz, if_false, Bool.false_eq_true, hwalk, hres] at h ⊢
          obtain ⟨s, hs, hc⟩ := ih (recvInto buf bytes) h
          exact ⟨s, List.mem_cons_of_mem _ hs, hc⟩

/-- A usage error of the route tool: `main` returns 2 before it builds the socket. -/
theorem pnroute_request_usage (a : RouteArgs) (pid : Nat) (stack : Mem) (hc : 1 < a.argc)
    (hu : a.isUsageError = true) : pnroute_request a pid stack = .error 2 := by
  have h0 : ¬ a.argc ≤ 1 := Nat.not_le.2 hc
  simp only [pnroute_request]
  rw [if_neg h0]
  by_cases h1 : a.argc ≠ 4
  · rw [if_pos h1]
  rw [if_neg h1]
  by_cases h2 : a.verb ≠ "add" ∧ a.verb ≠ "del"
  · rw [if_pos h2]
  rw [if_neg h2]
  by_cases h3 : 256 ≤ a.dst ∨ a.dst % 4 ≠ 0 ∨ a.endc ≠ 0
  · rw [if_pos h3]
  rw [if_neg h3]
  have h4 : a.ifindex = 0 := by
    simp only [RouteArgs.isUsageError, Bool.or_eq_true, Bool.and_eq_true, decide_eq_true_eq,
      bne_iff_ne] at hu
    tauto
  rw [if_pos h4]

/-- The status of an early `return` of the route tool is 2, and it is a usage error. -/
theorem pnroute_request_error (a : RouteArgs) (pid : Nat) (stack : Mem) (code : Nat)
    (h : pnroute_request a pid stack = .error code) :
    code = 2 ∧ 1 < a.argc ∧ a.isUsageError = true := by
  simp only [pnroute_request] at h
  by_cases h0 : a.argc ≤ 1
  · rw [if_pos h0] at h
    cases h
  rw [if_neg h0] at h
  have hc : 1 < a.argc := by omega
  by_cases h1 : a.argc ≠ 4
  · rw [if_pos h1] at h
    cases h
    exact ⟨rfl, hc, by simp [RouteArgs.isUsageError, h1]⟩
  rw [if_neg h1] at h
  by_cases h2 : a.verb ≠ "add" ∧ a.verb ≠ "del"
  · rw [if_pos h2] at h
    cases h
    exact ⟨rfl, hc, by simp [RouteArgs.isUsageError, h2]⟩
  rw [if_neg h2] at h
  by_cases h3 : 256 ≤ a.dst ∨ a.dst % 4 ≠ 0 ∨ a.endc ≠ 0
  · rw [if_pos h3] at h
    cases h
    refine ⟨rfl, hc, ?_⟩
    simp only [RouteArgs.isUsageError, Bool.or_eq_true, Bool.and_eq_true, decide_eq_true_eq,
      bne_iff_ne]
    tauto
  rw [if_neg h3] at h
  by_cases h4 : a.ifindex = 0
  · rw [if_pos h4] at h
    cases h
    exact ⟨rfl, hc, by simp [RouteArgs.isUsageError, h4]⟩
  · rw [if_neg h4] at h
    cases h

theorem phonet_addr_option_error (s : OptState) (type : Nat) (scan : Option Nat) (code : Nat)
    (h : phonet_addr_option s type scan = .error code) : code = 1 := by
  unfold phonet_addr_option at h
  cases scan with
  | none =>
    cases h
    rfl
  | some v =>
    simp only at h
    split_ifs at h
    cases h
    rfl

/-- An option that stops the address tool makes it exit with status 1, or 0 for `-h`. -/
theorem phonet_option_error (s : OptState) (o : Opt) (code : Nat)
    (h : phonet_option s o = .error code) : code = 1 ∨ (code = 0 ∧ o = Opt.h) := by
  cases o with
  | a scan => exact Or.inl (phonet_addr_option_error s _ scan code h)
  | d scan => exact Or.inl (phonet_addr_option_error s _ scan code h)
  | l => simp [phonet_option] at h
  | i k =>
    simp only [phonet_option] at h
    split_ifs at h
    cases h
    exact Or.inl rfl
  | h =>
    cases h
    exact Or.inr ⟨rfl, rfl⟩
  | other =>
    cases h
    exact Or.inl rfl

/-- An option with a usage error stops the address tool. -/
theorem phonet_option_usage (s : OptState) (o : Opt) (hu : o.isUsageError = true) :
    ∃ code, phonet_option s o = .error code := by
  cases o with
  | a scan =>
    cases scan with
    | none => exact ⟨1, rfl⟩
    | some v =>
      have hv : v % 256 % 4 ≠ 0 := by simpa [Opt.isUsageError] using hu
      exact ⟨1, by simp [phonet_option, phonet_addr_option, hv]⟩
  | d scan =>
    cases scan with
    | none => exact ⟨1, rfl⟩
    | some v =>
      have hv : v % 256 % 4 ≠ 0 := by simpa [Opt.isUsageError] using hu
      exact ⟨1, by simp [phonet_option, phonet_addr_option, hv]⟩
  | l => simp [Opt.isUsageError] at hu
  | i k =>
    have hk : k = 0 := by simpa [Opt.isUsageError] using hu
    exact ⟨1, by simp [phonet_option, hk]⟩
  | h => simp [Opt.isUsageError] at hu
  | other => simp [Opt.isUsageError] at hu

theorem phonet_options_error (s : OptState) (os : List Opt) (code : Nat)
    (h : phonet_options s os = .error code) : code = 1 ∨ (code = 0 ∧ Opt.h ∈ os) := by
  induction os generalizing s with
  | nil => simp [phonet_options] at h
  | cons o os ih =>
    simp only [phonet_options] at h
    cases ho : phonet_option s o with
    | error c =>
      rw [ho] at h
      cases h
      rcases phonet_option_error s o _ ho with h1 | ⟨h1, h2⟩
      · exact Or.inl h1
      · exact Or.inr ⟨h1, by simp [h2]⟩
    | ok s1 =>
      rw [ho] at h
      rcases ih s1 h with h1 | ⟨h1, h2⟩
      · exact Or.inl h1
      · exact Or.inr ⟨h1, List.mem_cons_of_mem _ h2⟩

theorem phonet_options_usage (s : OptState) (os : List Opt)
    (hu : ∃ o ∈ os, o.isUsageError = true) : ∃ code, phonet_options s os = .error code := by
  induction os generalizing s with
  | nil => simp at hu
  | cons o os ih =>
    simp only [phonet_options]
    cases ho : phonet_option s o with
    | error c => exact ⟨c, rfl⟩
    | ok s1 =>
      obtain ⟨x, hx, hxu⟩ := hu
      rcases List.mem_cons.1 hx with rfl | hx
      · obtain ⟨c, hc⟩ := phonet_option_usage s x hxu
        rw [hc] at ho
        cases ho
      · exact ih s1 ⟨x, hx, hxu⟩

theorem phonet_request_error (opts : List Opt) (code : Nat)
    (h : phonet_request opts = .error code) : code = 1 ∨ (code = 0 ∧ Opt.h ∈ opts) := by
  unfold phonet_request at h
  cases ho : phonet_options phonet_init opts with
  | error c =>
    rw [ho] at h
    cases h
    exact phonet_options_error _ _ _ ho
  | ok s =>
    rw [ho] at h
    simp only at h
    split_ifs at h <;> cases h <;> exact Or.inl rfl

theorem phonet_request_usage (opts : List Opt) (hu : ∃ o ∈ opts, o.isUsageError = true) :
    ∃ code, phonet_request opts = .error code := by
  obtain ⟨c, hc⟩ := phonet_options_usage phonet_init opts hu
  exact ⟨c, by simp [phonet_request, hc]⟩

/-- C8 (amended): in the route tool every usage error ends the process with exit status 2
before any socket is opened, and status 2 has no other cause; its exit status 1 is produced
only by runtime failures (`socket`, `sendto`, a failed or truncated receive, an ACK with a status
other than 0) and 0 only by a run that sent its request and ended on a zero-length read, a done
marker or an ACK with status 0. In the address tool every usage error (an address that does not
parse or has one of its low two bits set, an unresolvable device name) also ends the process
before any socket is opened, but with exit status 1 (0 when `-h` stands in front of it); the
address tool never exits with status 2, and status 0 comes from `-h` or from success. -/
theorem exit_statuses (w fuel : Nat) :
    (∀ (a : RouteArgs) (e : Env), 1 < a.argc → a.isUsageError = true →
      (pnroute_main w fuel a e).status = Status.exited 2 ∧
        (pnroute_main w fuel a e).sockets = 0) ∧
    (∀ (a : RouteArgs) (e : Env), (pnroute_main w fuel a e).status = Status.exited 2 →
      1 < a.argc ∧ a.isUsageError = true) ∧
    (∀ (a : RouteArgs) (e : Env), (pnroute_main w fuel a e).status = Status.exited 1 →
      (pnroute_main w fuel a e).sockets = 1 ∧
        (e.socketOk = false ∨ e.sendOk = false ∨
          ∃ s ∈ (pnroute_main w fuel a e).steps, s.isFailure)) ∧
    (∀ (a : RouteArgs) (e : Env), (pnroute_main w fuel a e).status = Status.exited 0 →
      (pnroute_main w fuel a e).sent ≠ [] ∧ e.sendOk = true ∧
        ∃ s ∈ (pnroute_main w fuel a e).steps, s.isSuccess) ∧
    (∀ (opts : List Opt) (e : Env), (∃ o ∈ opts, o.isUsageError = true) →
      (phonet_main w fuel opts e).sockets = 0 ∧
        ((phonet_main w fuel opts e).status = Status.exited 1 ∨
          ((phonet_main w fuel opts e).status = Status.exited 0 ∧ Opt.h ∈ opts))) ∧
    (∀ (opts : List Opt) (e : Env), (phonet_main w fuel opts e).status ≠ Status.exited 2) ∧
    (∀ (opts : List Opt) (e : Env), (phonet_main w fuel opts e).status = Status.exited 0 →
      Opt.h ∈ opts ∨ ∃ s ∈ (phonet_main w fuel opts e).steps, s.isSuccess) := by
  refine ⟨?_, ?_, ?_, ?_, ?_, ?_, ?_⟩
  · intro a e hc hu
    simp [pnroute_main, pnroute_request_usage a e.pid e.stack hc hu]
  · intro a e h
    unfold pnroute_main at h
    cases hreq : pnroute_request a e.pid e.stack with
    | error c =>
      obtain ⟨-, h2, h3⟩ := pnroute_request_error a e.pid e.stack c hreq
      exact ⟨h2, h3⟩
    | ok req =>
      rw [hreq] at h
      simp only at h
      split_ifs at h
      · cases h
      · cases h
      · obtain ⟨s, -, hs⟩ := recvLoop_exit _ _ _ _ _ _ h
        rcases hs with ⟨h1, -⟩ | ⟨h1, -⟩ <;> cases h1
  · intro a e h
    unfold pnroute_main at h ⊢
    cases hreq : pnroute_request a e.pid e.stack with
    | error c =>
      obtain ⟨h1, -, -⟩ := pnroute_request_error a e.pid e.stack c hreq
      rw [hreq] at h
      subst h1
      cases h
    | ok req =>
      rw [hreq] at h
      simp only at h ⊢
      by_cases hs : e.socketOk = true
      · by_cases hd : e.sendOk = true
        · simp only [hs, hd, Bool.not_true, Bool.false_eq_true, if_false] at h ⊢
          obtain ⟨s, hmem, hc⟩ := recvLoop_exit _ _ _ _ _ _ h
          rcases hc with ⟨-, hf⟩ | ⟨h1, -⟩
          · exact ⟨trivial, Or.inr (Or.inr ⟨s, hmem, hf⟩)⟩
          · cases h1
        · simp [hs, hd]
      · simp [hs]
  · intro a e h
    unfold pnroute_main at h ⊢
    cases hreq : pnroute_request a e.pid e.stack with
    | error c =>
      obtain ⟨h1, -, -⟩ := pnroute_request_error a e.pid e.stack c hreq
      rw [hreq] at h
      subst h1
      cases h
    | ok req =>
      rw [hreq] at h
      simp only at h ⊢
      by_cases hs : e.socketOk = true
      · by_cases hd : e.sendOk = true
        · simp only [hs, hd, Bool.not_true, Bool.false_eq_true, if_false] at h ⊢
          obtain ⟨s, hmem, hc⟩ := recvLoop_exit _ _ _ _ _ _ h
          rcases hc with ⟨h1, -⟩ | ⟨-, hf⟩
          · cases h1
          · exact ⟨by simp, trivial, s, hmem, hf⟩
        · simp [hs, hd] at h
      · simp [hs] at h
  · intro opts e hu
    obtain ⟨c, hc⟩ := phonet_request_usage opts hu
    rcases phonet_request_error opts c hc with h1 | ⟨h1, h2⟩
    · subst h1
      simp [phonet_main, hc]
    · subst h1
      simp [phonet_main, hc, h2]
  · intro opts e h
    unfold phonet_main at h
    cases hreq : phonet_request opts with
    | error c =>
      rw [hreq] at h
      rcases phonet_request_error opts c hreq with h1 | ⟨h1, -⟩ <;> subst h1 <;> cases h
    | ok s =>
      rw [hreq] at h
      simp only at h
      split_ifs at h
      · cases h
      · cases h
      · cases h
      · obtain ⟨s, -, hs⟩ := recvLoop_exit _ _ _ _ _ _ h
        rcases hs with ⟨h1, -⟩ | ⟨h1, -⟩ <;> cases h1
  · intro opts e h
    unfold phonet_main at h ⊢
    cases hreq : phonet_request opts with
    | error c =>
      rw [hreq] at h
      rcases phonet_request_error opts c hreq with h1 | ⟨-, h2⟩
      · subst h1
        cases h
      · exact Or.inl h2
    | ok s =>
      rw [hreq] at h
      simp only at h ⊢
      split_ifs at h ⊢
      · cases h
      · cases h
      · cases h
      · obtain ⟨s, hmem, hc⟩ := recvLoop_exit _ _ _ _ _ _ h
        rcases hc with ⟨h1, -⟩ | ⟨-, hf⟩
        · cases h1
        · exact Or.inr ⟨s, hmem, hf⟩

/-- Witness of `exit_statuses`: `pnroute add 5 DEV` is a usage error of the route tool. -/
theorem exit_statuses_witness :
    (1 < (RouteArgs.mk 4 "add" 5 0 1).argc ∧ (RouteArgs.mk 4 "add" 5 0 1).isUsageError = true) ∧
    (pnroute_main 64 4 (RouteArgs.mk 4 "add" 5 0 1) envOk).status = Status.exited 2 ∧
      (pnroute_main 64 4 (RouteArgs.mk 4 "add" 5 0 1) envOk).sockets = 0 :=
  ⟨⟨by decide, by decide⟩,
    (exit_statuses 64 4).1 (RouteArgs.mk 4 "add" 5 0 1) envOk (by decide) (by decide)⟩

/-- C8 (counterexample): the address tool ends with exit status 1, not 2, on an address that
does not parse (`phonet -a zz`), on an address with a low bit set (`phonet -a 05`) and on an
unresolvable device name (`phonet -a 04 -i nodev`). -/
theorem phonet_usage_error_exits_1 :
    (phonet_main 64 4 [Opt.a none] envOk).status = Status.exited 1 ∧
      (phonet_main 64 4 [Opt.a (some 5)] envOk).status = Status.exited 1 ∧
      (phonet_main 64 4 [Opt.a (some 4), Opt.i 0] envOk).status = Status.exited 1 ∧
      (phonet_main 64 4 [Opt.a none] envOk).status ≠ Status.exited 2 := by
  decide

/-! ## The round trip of the route tool when the unwritten bytes hold no attribute -/

/-- The round trip of the route tool succeeds when the two bytes of `req` at address 44, which
`main` never stores to, do not hold an attribute length of 4 or 5: the loop of `print_route`
then visits the two attributes of the request and decodes the destination and the interface
index it was built from. -/
theorem route_roundtrip_clean (a : RouteArgs) (pid : Nat) (stack : Mem) (hc : a.argc = 4)
    (hverb : a.verb = "add" ∨ a.verb = "del") (hd : a.dst < 256) (hd4 : a.dst % 4 = 0)
    (he : a.endc = 0) (hi : a.ifindex ≠ 0) (hi32 : a.ifindex < 4294967296)
    (hstale : rta_len stack 44 < 4 ∨ 5 < rta_len stack 44) :
    pnroute_roundtrip a pid stack =
      some { attrs := [(28, 5, RTA_DST), (36, 8, RTA_OIF)]
             reads := [(28, 2), (30, 2), (32, 1), (36, 2), (38, 2), (40, 4), (44, 2)]
             dst := a.dst
             oifs := [a.ifindex] } := by
  obtain ⟨req, hreq, hl, -, -, hs, a1, a2, a3, b1, b2, b3⟩ :=
    pnroute_request_change a pid stack hc hverb hd hd4 he hi
  have hpay : RTM_PAYLOAD req 0 = 21 := by
    simp [RTM_PAYLOAD, hl, NLMSG_SPACE_rtmsg, toInt32]
  have hlen44 : rta_len req 44 = rta_len stack 44 := by
    simp [rta_len, rd16, rd8, hs]
  have hno : RTA_OK req 44 5 = false := by
    simp only [RTA_OK, hlen44, Bool.and_eq_false_iff, decide_eq_false_iff_not]
    omega
  rw [Nat.mod_eq_of_lt hi32] at b3
  simp only [pnroute_roundtrip, hreq, route_attrs, hpay]
  have h28 : RTM_RTA (NLMSG_DATA 0) = 28 := rfl
  have hfuel : (21 : Int).toNat / 4 + 1 = 6 := rfl
  rw [h28, hfuel]
  have hok1 : RTA_OK req 28 21 = true := by
    simp [RTA_OK, a1]
  have hok2 : RTA_OK req 36 13 = true := by
    simp [RTA_OK, b1]
  have hal5 : RTA_ALIGN 5 = 8 := rfl
  have hal8 : RTA_ALIGN 8 = 8 := rfl
  simp [rtaLoop, hok1, hok2, hno, a1, a2, a3, b1, b2, b3, hal5, hal8, RTA_DATA_eq, RTA_DST,
    RTA_OIF]

/-! ## What the attribute loop reads -/

/-- The true part of the bound on `print_route`: every attribute the loop visits lies, with the
length its header declares, inside the `len` bytes of payload, and every memory access of the
loop starts inside the payload and ends at most 4 bytes behind it. -/
theorem rtaLoop_bounds (m : Mem) (fuel rta : Nat) (len : Int) (dst : Nat) (o : RtaOut)
    (h : rtaLoop m fuel rta len dst = some o) :
    (∀ x ∈ o.attrs, rta ≤ x.1 ∧ ((x.1 + x.2.1 : Nat) : Int) ≤ rta + len) ∧
      (∀ r ∈ o.reads, rta ≤ r.1 ∧ ((r.1 + r.2 : Nat) : Int) ≤ rta + len + 4) := by
  induction fuel generalizing rta len dst o with
  | zero => simp [rtaLoop] at h
  | succ fuel ih =>
    unfold rtaLoop at h
    by_cases h4 : 4 ≤ len
    · by_cases hok : RTA_OK m rta len = true
      · have hlen : 4 ≤ rta_len m rta ∧ (rta_len m rta : Int) ≤ len := by
          simp only [RTA_OK, Bool.and_eq_true, decide_eq_true_eq] at hok
          exact hok.2
        have hstep := RTA_ALIGN_ge (rta_len m rta) hlen.1 (rd16_lt m rta)
        have hstep2 : rta_len m rta ≤ RTA_ALIGN (rta_len m rta) := by
          have := rd16_lt m rta
          unfold rta_len RTA_ALIGN at *
          omega
        simp only [h4, hok, if_true, RTA_DATA_eq] at h
        split_ifs at h
        all_goals
          obtain ⟨o1, ho1, rfl⟩ := Option.map_eq_some'.1 h
          obtain ⟨ha, hr⟩ := ih _ _ _ _ ho1
          refine ⟨?_, ?_⟩
          · intro x hx
            simp only [List.mem_cons] at hx
            rcases hx with rfl | hx
            · exact ⟨le_refl _, by push_cast; omega⟩
            · have := ha x hx
              constructor
              · omega
              · push_cast at this ⊢
                omega
          · intro r hr2
            simp only [List.cons_append, List.nil_append, List.mem_cons] at hr2
            rcases hr2 with rfl | rfl | hr2
            · exact ⟨le_refl _, by push_cast; omega⟩
            · exact ⟨by omega, by push_cast; omega⟩
            · first
                | (rcases hr2 with rfl | hr2
                   · exact ⟨by omega, by push_cast; omega⟩
                   · have hb := hr r hr2
                     constructor
                     · omega
                     · push_cast at hb ⊢
                       omega)
                | (obtain ⟨hb1, hb2⟩ := hr r hr2
                   constructor
                   · omega
                   · push_cast at hb2 ⊢
                     omega)
      · simp only [h4, hok, if_true, if_false, Bool.false_eq_true, Option.some.injEq] at h
        subst h
        refine ⟨by simp, ?_⟩
        intro r hr
        simp only [List.mem_singleton] at hr
        subst hr
        exact ⟨le_refl _, by push_cast; omega⟩
    · simp only [h4, if_false, Option.some.injEq] at h
      subst h
      simp

/-! ## Flags of requests with one operation -/

/-- The flags and the type of the request of the route tool agree: `NLM_F_REQUEST` is set,
`NLM_F_ACK` exactly for `add` / `del`, `NLM_F_ROOT` exactly for the listing. -/
theorem pnroute_flags (a : RouteArgs) (pid : Nat) (stack req : Mem)
    (h : pnroute_request a pid stack = .ok req) :
    nlmsg_flags req 0 &&& NLM_F_REQUEST = NLM_F_REQUEST ∧
      (nlmsg_flags req 0 &&& NLM_F_ACK = NLM_F_ACK ↔
        (nlmsg_type req 0 = RTM_NEWROUTE ∨ nlmsg_type req 0 = RTM_DELROUTE)) ∧
      (nlmsg_flags req 0 &&& NLM_F_ROOT = NLM_F_ROOT ↔ nlmsg_type req 0 = RTM_GETROUTE) := by
  rcases pnroute_request_ok a pid stack req h with h1 | ⟨h1, h2, h3, h4, h5, h6⟩
  · obtain ⟨r, hr, -, ht, hf⟩ := pnroute_request_list a pid stack h1
    rw [h] at hr
    cases hr
    rw [ht, hf]
    decide
  · obtain ⟨r, hr, -, ht, hf, -⟩ := pnroute_request_change a pid stack h1 h2 h3 h4 h5 h6
    rw [h] at hr
    cases hr
    rw [ht, hf]
    split <;> decide

theorem phonet_addr_option_flags (s : OptState) (type v : Nat) (hv : v % 256 % 4 = 0) :
    ∃ s1, phonet_addr_option s type (some v) = .ok s1 ∧
      nlmsg_flags s1.nlreq 0 = (nlmsg_flags s.nlreq 0 ||| NLM_F_ACK) % 65536 ∧
      nlmsg_type s1.nlreq 0 = type % 65536 ∧ s1.ifa_index = s.ifa_index := by
  refine ⟨_, by simp only [phonet_addr_option, hv]; rfl, ?_, ?_, ?_⟩
  · have hkeep : nlmsg_flags (wr16 s.nlreq 4 type) 0 = nlmsg_flags s.nlreq 0 := by
      simp [nlmsg_flags, rd16, wr16, rd8_wr8]
    rw [hkeep]
    simp only [nlmsg_flags, rd16, wr32, wr16, rd8_wr8, NLMSG_DATA_eq, IFA_RTA_eq, RTA_DATA_eq,
      RTA_LENGTH_eq]
    simp [le16_value]
  · simp only [nlmsg_type, nlmsg_flags, rd32, rd16, wr32, wr16, rd8_wr8, NLMSG_DATA_eq,
      IFA_RTA_eq, RTA_DATA_eq, RTA_LENGTH_eq]
    simp [le16_value]
  · rfl

/-- Resolvable `-i` options change only `ifa_index`. -/
theorem phonet_options_dev (os : List Opt) (s : OptState)
    (h : ∀ o ∈ os, ∃ k, k ≠ 0 ∧ o = Opt.i k) :
    ∃ s1, phonet_options s os = .ok s1 ∧ s1.nlreq = s.nlreq ∧
      (s.ifa_index ≠ 0 → s1.ifa_index ≠ 0) ∧ (os ≠ [] → s1.ifa_index ≠ 0) := by
  induction os generalizing s with
  | nil => exact ⟨s, rfl, rfl, id, fun h => absurd rfl h⟩
  | cons o os ih =>
    obtain ⟨k, hk, rfl⟩ := h o (List.mem_cons_self _ _)
    obtain ⟨s1, h1, h2, h3, -⟩ := ih { s with ifa_index := k }
      (fun x hx => h x (List.mem_cons_of_mem _ hx))
    exact ⟨s1, by simpa [phonet_options, phonet_option, hk] using h1, h2, fun _ => h3 hk,
      fun _ => h3 hk⟩

/-- For a command line of the address tool with exactly one operation option (`-a`, `-d` with a
valid address, or `-l`) among resolvable `-i` options, the flags and the type of the request
agree: `NLM_F_REQUEST` is set, `NLM_F_ACK` exactly for add / delete, `NLM_F_ROOT` exactly for
the listing. -/
theorem phonet_flags_single (pre post : List Opt) (op : Opt)
    (hpre : ∀ o ∈ pre, ∃ k, k ≠ 0 ∧ o = Opt.i k) (hpost : ∀ o ∈ post, ∃ k, k ≠ 0 ∧ o = Opt.i k)
    (hi : pre ≠ [] ∨ post ≠ [])
    (hop : op = Opt.l ∨ ∃ v, v % 256 % 4 = 0 ∧ (op = Opt.a (some v) ∨ op = Opt.d (some v))) :
    ∃ s, phonet_request (pre ++ op :: post) = .ok s ∧
      nlmsg_flags s.nlreq 0 &&& NLM_F_REQUEST = NLM_F_REQUEST ∧
      (nlmsg_flags s.nlreq 0 &&& NLM_F_ACK = NLM_F_ACK ↔
        (nlmsg_type s.nlreq 0 = RTM_NEWADDR ∨ nlmsg_type s.nlreq 0 = RTM_DELADDR)) ∧
      (nlmsg_flags s.nlreq 0 &&& NLM_F_ROOT = NLM_F_ROOT ↔ nlmsg_type s.nlreq 0 = RTM_GETADDR) := by
  obtain ⟨s1, e1, n1, -, j1⟩ := phonet_options_dev pre phonet_init hpre
  obtain ⟨hf0, ht0⟩ : nlmsg_flags s1.nlreq 0 = NLM_F_REQUEST ∧ nlmsg_type s1.nlreq 0 = NOT_SET := by
    rw [n1]
    exact ⟨phonet_init_fields.2.2.1, phonet_init_fields.2.1⟩
  obtain ⟨s2, e2, hf2, ht2, hidx2⟩ : ∃ s2, phonet_option s1 op = .ok s2 ∧
      ((nlmsg_flags s2.nlreq 0 = 5 ∧
          (nlmsg_type s2.nlreq 0 = RTM_NEWADDR ∨ nlmsg_type s2.nlreq 0 = RTM_DELADDR)) ∨
        (nlmsg_flags s2.nlreq 0 = 769 ∧ nlmsg_type s2.nlreq 0 = RTM_GETADDR)) ∧
      nlmsg_type s2.nlreq 0 ≠ NOT_SET ∧ s2.ifa_index = s1.ifa_index := by
    rcases hop with rfl | ⟨v, hv, rfl | rfl⟩
    · refine ⟨_, rfl, Or.inr ⟨?_, ?_⟩, ?_, rfl⟩
      · have hkeep : nlmsg_flags (wr16 s1.nlreq 4 RTM_GETADDR) 0 = nlmsg_flags s1.nlreq 0 := by
          simp [nlmsg_flags, rd16, wr16, rd8_wr8]
        rw [hkeep, hf0]
        simp [nlmsg_flags, rd16, wr16, rd8_wr8, NLM_F_REQUEST, NLM_F_ROOT, NLM_F_MATCH]
      · simp [nlmsg_type, rd16, wr16, rd8_wr8, RTM_GETADDR]
      · simp [nlmsg_type, rd16, wr16, rd8_wr8, RTM_GETADDR, NOT_SET]
    · obtain ⟨s2, h1, h2, h3, h4⟩ := phonet_addr_option_flags s1 RTM_NEWADDR v hv
      rw [hf0] at h2
      exact ⟨s2, h1, Or.inl ⟨h2, Or.inl h3⟩, by rw [h3]; decide, h4⟩
    · obtain ⟨s2, h1, h2, h3, h4⟩ := phonet_addr_option_flags s1 RTM_DELADDR v hv
      rw [hf0] at h2
      exact ⟨s2, h1, Or.inl ⟨h2, Or.inr h3⟩, by rw [h3]; decide, h4⟩
  obtain ⟨s3, e3, n3, i3, j3⟩ := phonet_options_dev post s2 hpost
  have hrun : phonet_options phonet_init (pre ++ op :: post) = .ok s3 := by
    rw [phonet_options_append, e1]
    simp only [phonet_options, e2, e3]
  have htyp : nlmsg_type s3.nlreq 0 ≠ NOT_SET := by
    rw [n3]
    exact ht2
  have hidx : s3.ifa_index ≠ 0 := by
    rcases hi with h | h
    · exact i3 (hidx2 ▸ j1 h)
    · exact j3 h
  refine ⟨{ s3 with nlreq := wr32 s3.nlreq (NLMSG_DATA 0 + 4) s3.ifa_index }, ?_, ?_⟩
  · simp only [phonet_request, hrun, htyp, hidx, if_false]
  · have hfl : nlmsg_flags (wr32 s3.nlreq (NLMSG_DATA 0 + 4) s3.ifa_index) 0 =
        nlmsg_flags s2.nlreq 0 := by
      rw [n3]
      simp [nlmsg_flags, rd16, wr32, rd8_wr8, NLMSG_DATA_eq]
    have hty : nlmsg_type (wr32 s3.nlreq (NLMSG_DATA 0 + 4) s3.ifa_index) 0 =
        nlmsg_type s2.nlreq 0 := by
      rw [n3]
      simp [nlmsg_type, rd16, wr32, rd8_wr8, NLMSG_DATA_eq]
    simp only [hfl, hty]
    rcases hf2 with ⟨h1, h2 | h2⟩ | ⟨h1, h2⟩ <;> rw [h1, h2] <;> decide

/-! ## The comparator of the inode tree -/

/-- When two inodes are less than `2 ^ 31` apart, `inocmp` returns their exact difference. -/
theorem inocmp_near (w : Nat) (hw : w = 32 ∨ w = 64) (fa fb : Fd)
    (ha : (fa.inode : Int) < 2 ^ w) (hb : (fb.inode : Int) < 2 ^ w)
    (h1 : (fa.inode : Int) - fb.inode < 2147483648)
    (h2 : (fb.inode : Int) - fa.inode < 2147483648) :
    inocmp w fa fb = (fa.inode : Int) - fb.inode := by
  rcases hw with rfl | rfl
  · norm_num at ha hb
    unfold inocmp toInt32
    norm_num
    omega
  · norm_num at ha hb
    unfold inocmp toInt32
    norm_num
    omega

/-- For inodes less than `2 ^ 31` apart `inocmp` is a three-way comparison: its result is zero
exactly for equal inodes and negative exactly when the first inode is the smaller one. -/
theorem inocmp_near_sign (w : Nat) (hw : w = 32 ∨ w = 64) (fa fb : Fd)
    (ha : (fa.inode : Int) < 2 ^ w) (hb : (fb.inode : Int) < 2 ^ w)
    (h1 : (fa.inode : Int) - fb.inode < 2147483648)
    (h2 : (fb.inode : Int) - fa.inode < 2147483648) :
    (inocmp w fa fb = 0 ↔ fa.inode = fb.inode) ∧ (inocmp w fa fb < 0 ↔ fa.inode < fb.inode) := by
  rw [inocmp_near w hw fa fb ha hb h1 h2]
  constructor <;> omega

/-- With a 32-bit `unsigned long`, `inocmp` returns zero exactly for equal inodes. -/
theorem inocmp_zero_iff_32 (fa fb : Fd) (ha : fa.inode < 4294967296)
    (hb : fb.inode < 4294967296) : inocmp 32 fa fb = 0 ↔ fa.inode = fb.inode := by
  unfold inocmp toInt32
  norm_num
  omega

/-- C11 (failing input): `inocmp` is no consistent three-way comparison. For the inodes
`2 ^ 31` and 0 it returns `INT_MIN` in either order, a negative result although the first inode
is the larger one, so it is not antisymmetric; it puts 0 before 1 and 1 before `2 ^ 31 + 1` but
`2 ^ 31 + 1` before 0, so it is not transitive; this holds for a 32-bit and a 64-bit
`unsigned long`. With a 64-bit `unsigned long` it also returns 0 for the different inodes
`2 ^ 32` and 0. -/
theorem inocmp_inconsistent :
    (inocmp 32 ⟨2147483648, 1⟩ ⟨0, 2⟩ = -2147483648 ∧
      inocmp 32 ⟨0, 2⟩ ⟨2147483648, 1⟩ = -2147483648 ∧
      inocmp 64 ⟨2147483648, 1⟩ ⟨0, 2⟩ = -2147483648 ∧
      inocmp 64 ⟨0, 2⟩ ⟨2147483648, 1⟩ = -2147483648) ∧
    (inocmp 32 ⟨0, 1⟩ ⟨1, 1⟩ = -1 ∧ inocmp 32 ⟨1, 1⟩ ⟨2147483649, 1⟩ = -2147483648 ∧
      inocmp 32 ⟨0, 1⟩ ⟨2147483649, 1⟩ = 2147483647) ∧
    (inocmp 64 ⟨0, 1⟩ ⟨1, 1⟩ = -1 ∧ inocmp 64 ⟨1, 1⟩ ⟨2147483649, 1⟩ = -2147483648 ∧
      inocmp 64 ⟨0, 1⟩ ⟨2147483649, 1⟩ = 2147483647) ∧
    inocmp 64 ⟨4294967296, 1⟩ ⟨0, 2⟩ = 0 := by
  decide

end PhonetUtils
